import Mathlib

/-!
Verification of the BMC code-management orchestrator
(`item_updater.cpp`, `activation.cpp`, `msl_verify.cpp`).

The C++ sources are embedded shallowly:

* `std::map<std::string, T>` registries become sorted association lists
  `List (String × T)`; iteration order is list order, matching the sorted
  iteration order of `std::map`.
* `uint8_t` arithmetic becomes `Nat` with explicit `% 256` where the source
  can overflow (the `freePriority` collision cascade).
* Calls into external collaborators (storage helper, systemd, D-Bus) are
  recorded as an `Effect` trace; the persisted u-boot pointer is kept in the
  state because several invariants are about it.
-/

namespace Updater

/-- `xyz.openbmc_project.Software.Activation.Activations` D-Bus states. -/
inductive Activations where
  | NotReady
  | Invalid
  | Ready
  | Activating
  | Active
  | Failed
deriving DecidableEq, Repr

/-- `xyz.openbmc_project.Software.Activation.RequestedActivations` values. -/
inductive RequestedActivations where
  | None
  | Active
deriving DecidableEq, Repr

/-- The fields of one `Activation` object (activation.hpp) that the verified
operations read or write.  `redundancyPriority` is `some p` when the
`RedundancyPriority` D-Bus interface is instantiated with priority `p`
(a `uint8_t`, so `p < 256` in well-formed states); `activationProgress` and
`activationBlocksTransition` mirror the two helper objects, and the three
Bool flags are the write-phase flags cleared by `requestedActivation`. -/
structure ActState where
  versionId : String
  path : String
  activationState : Activations
  requestedActivation : RequestedActivations
  redundancyPriority : Option Nat
  activationProgress : Option Nat
  activationBlocksTransition : Bool
  rwVolumeCreated : Bool
  roVolumeCreated : Bool
  ubootEnvVarsUpdated : Bool
deriving DecidableEq, Repr

/-- Calls the `ItemUpdater` makes into its external collaborators
(storage helper, persisted serialization).  `updateUboot` is the write of the
persisted boot-environment pointer performed by
`helper.updateUbootVersionId`. -/
inductive Effect where
  | updateUboot (versionId : String)
  | removeReadOnlyPartition (versionId : String)
  | removePersistData (versionId : String)
  | clearEntry (versionId : String)
  | storePriority (versionId : String) (value : Nat)
  | setEntry (versionId : String) (value : Nat)
deriving DecidableEq, Repr

/-- The `ItemUpdater` registry: the `versions` map (only the `isFunctional`
bit of each `Version` is relevant to the verified operations), the
`activations` map, the association list, and the persisted boot-environment
pointer (the last value written through `helper.updateUbootVersionId`). -/
structure UpdState where
  versions : List (String × Bool)
  activations : List (String × ActState)
  assocs : List (String × String × String)
  bootEnv : String
deriving DecidableEq, Repr

/-! ### Association-list helpers (the `std::map` operations used) -/

/-- `map.find(k)`, returning the mapped value. -/
def mapLookup {α : Type} (l : List (String × α)) (k : String) : Option α :=
  match l with
  | [] => none
  | (a, b) :: t => if a = k then some b else mapLookup t k

/-- `map.erase(k)`: remove the (unique, in a well-formed map) entry for `k`. -/
def mapErase {α : Type} (l : List (String × α)) (k : String) : List (String × α) :=
  match l with
  | [] => []
  | (a, b) :: t => if a = k then t else (a, b) :: mapErase t k

/-- Mutate the entry for `k` (if present) to hold redundancy priority `p`;
this is `activations.find(k)->second->...sdbusPriority(p)` acting on the
stored priority. -/
def mapSetRp (l : List (String × ActState)) (k : String) (p : Nat) :
    List (String × ActState) :=
  match l with
  | [] => []
  | (a, b) :: t =>
      if a = k then (a, { b with redundancyPriority := some p }) :: t
      else (a, b) :: mapSetRp t k p

/-- Keys of a map, in iteration order. -/
def mapKeys {α : Type} (l : List (String × α)) : List String := l.map Prod.fst

/-- Well-formedness of a registry map: pairwise distinct keys.  A real
`std::map` additionally keeps its keys sorted; the embedding keeps the
map's iteration order as the list order and only ever needs key
distinctness. -/
def KeysSorted {α : Type} (l : List (String × α)) : Prop :=
  l.Pairwise (fun a b => ¬ a.1 = b.1)

/-- A stored redundancy priority, if initialized, fits in `uint8_t`. -/
def rpWithin (o : Option Nat) : Prop :=
  match o with
  | none => True
  | some p => p < 256

instance : DecidablePred rpWithin := fun o => by
  unfold rpWithin
  cases o <;> infer_instance

/-- Well-formedness of the whole registry: both maps sorted, every
`Activation` stores its own key as `versionId` (true by construction in
`createActivation` / `processBMCImage`), and every stored priority fits in
`uint8_t`. -/
def UpdWF (st : UpdState) : Prop :=
  KeysSorted st.versions ∧ KeysSorted st.activations ∧
    ∀ ka ∈ st.activations, ka.2.versionId = ka.1 ∧
      rpWithin ka.2.redundancyPriority

instance {α : Type} : DecidablePred (KeysSorted (α := α)) := fun l => by
  unfold KeysSorted
  infer_instance

instance : DecidablePred UpdWF := fun st => by
  unfold UpdWF
  infer_instance

/-! ### `ItemUpdater` operations (item_updater.cpp) -/

/-- Modelled from the spec: `helper.updateUbootVersionId` (the helper
implementation is not among the given sources).  Per §6 (`setBootTarget`)
and §4.3 it writes its argument to the persisted boot-environment
variable. -/
def updateUbootEnvVars (st : UpdState) (versionId : String) :
    UpdState × List Effect :=
  ({ st with bootEnv := versionId }, [Effect.updateUboot versionId])

/-- `ItemUpdater::resetUbootEnvVars`: scan the activations map for the
lowest initialized priority (`<=`, so among ties the later entry in map
order wins), starting from `uint8_t` max (255) and a default-constructed
(empty) version id, then write the result. -/
def lowestStep (acc : Nat × String) (ka : String × ActState) : Nat × String :=
  match ka.2.redundancyPriority with
  | none => acc
  | some p => if p ≤ acc.1 then (p, ka.2.versionId) else acc

def lowestPriorityScan (l : List (String × ActState)) : Nat × String :=
  l.foldl lowestStep (255, "")

def resetUbootEnvVars (st : UpdState) : UpdState × List Effect :=
  updateUbootEnvVars st (lowestPriorityScan st.activations).2

/-- `ItemUpdater::removeAssociations`: drop every association whose target
path matches. -/
def removeAssociations (assocs : List (String × String × String))
    (path : String) : List (String × String × String) :=
  assocs.filter (fun t => ¬ t.2.2 = path)

/-- `ItemUpdater::erase`.  `maxAllowed` is the build-time constant
`ACTIVE_BMC_MAX_ALLOWED`.  The refusal guard (functional image while more
than one active slot is allowed) returns before any mutation; otherwise the
activation entry is removed before `resetUbootEnvVars` runs, the read-only
partition / persisted data are removed whether or not the version was found,
and the helper finally forgets the priority entry. -/
def eraseOp (maxAllowed : Nat) (st : UpdState) (entryId : String) :
    UpdState × List Effect :=
  if mapLookup st.versions entryId = some true ∧ 1 < maxAllowed then
    (st, [])
  else
    let st1 :=
      match mapLookup st.activations entryId with
      | none => st
      | some a =>
          { st with assocs := removeAssociations st.assocs a.path,
                    activations := mapErase st.activations entryId }
    let r2 := resetUbootEnvVars st1
    let st3 :=
      if (mapLookup st.versions entryId).isSome then
        { r2.1 with versions := mapErase r2.1.versions entryId }
      else r2.1
    (st3, r2.2 ++ [Effect.removeReadOnlyPartition entryId,
                   Effect.removePersistData entryId,
                   Effect.clearEntry entryId])

/-! ### `ItemUpdater::freePriority` (item_updater.cpp:445-497)

The C++ builds `priorityMap : std::map<std::string, uint8_t>` whose `insert`
keeps the first value for a key, so the requested `(versionId, value)` pair
(inserted first) wins over that version's current priority.  The pairs are
then placed in a `std::set` ordered by the `<=`-on-priority comparator;
because `<=` is not a strict weak order no two pairs ever compare
equivalent, so the set holds every pair sorted by ascending priority.
The relative order of equal-priority pairs is implementation defined
(formally undefined behaviour of `std::set` with a non-strict comparator);
the model uses a stable insertion sort on the priority alone, and none of
the theorems below depend on the tie order. -/

/-- Snapshot order: ascending priority. -/
def snapLe (a b : String × Nat) : Prop :=
  a.2 ≤ b.2

instance : DecidableRel snapLe := fun a b => by
  unfold snapLe; infer_instance

/-- Insertion sort by `snapLe` (a total relation, see `snapLe_total`). -/
def snapInsert (x : String × Nat) : List (String × Nat) → List (String × Nat)
  | [] => [x]
  | y :: t => if snapLe x y then x :: y :: t else y :: snapInsert x t

def snapSort : List (String × Nat) → List (String × Nat)
  | [] => []
  | x :: t => snapInsert x (snapSort t)

/-- The `(versionId, priority)` pairs of every activation holding an
initialized `redundancyPriority`, in map iteration order. -/
def rpPairs (l : List (String × ActState)) : List (String × Nat) :=
  l.filterMap (fun ka => ka.2.redundancyPriority.map (fun p => (ka.1, p)))

/-- The contents of `priorityMap`: the requested pair plus every other
activation's current pair (`std::map::insert` keeps the requested value for
`versionId` itself). -/
def priorityPairs (st : UpdState) (value : Nat) (versionId : String) :
    List (String × Nat) :=
  (versionId, value) :: (rpPairs st.activations).filter (fun kp => ¬ kp.1 = versionId)

/-- The collision cascade of `freePriority`: walk the sorted snapshot with a
running `uint8_t` free value (starting at the requested value); skip the
requested version; when an entry's snapshot priority equals the running
value, increment the running value (wrapping at 256) and record the entry's
new priority.  Returns the `sdbusPriority` updates in call order. -/
def cascade (versionId : String) : Nat → List (String × Nat) → List (String × Nat)
  | _, [] => []
  | free, kp :: rest =>
      if kp.1 = versionId then cascade versionId free rest
      else if kp.2 = free then
        (kp.1, (free + 1) % 256) :: cascade versionId ((free + 1) % 256) rest
      else cascade versionId free rest

/-- Apply the cascade's `sdbusPriority` writes to the activations map. -/
def applyUpdates (l : List (String × ActState)) :
    List (String × Nat) → List (String × ActState)
  | [] => l
  | (k, p) :: rest => applyUpdates (mapSetRp l k p) rest

/-- Effects of the cascade: each `sdbusPriority(p)` call persists the value
(`savePriority` = `storePriority` + `helper.setEntry`). -/
def cascadeEffects (us : List (String × Nat)) : List Effect :=
  us.flatMap (fun kp => [Effect.storePriority kp.1 kp.2, Effect.setEntry kp.1 kp.2])

/-- `ItemUpdater::freePriority(value, versionId)`. -/
def freePriority (st : UpdState) (value : Nat) (versionId : String) :
    UpdState × List Effect :=
  let snap := snapSort (priorityPairs st value versionId)
  let us := cascade versionId value snap
  let lowest :=
    match snap with
    | [] => versionId
    | (v0, p0) :: _ => if value = p0 then versionId else v0
  let r := updateUbootEnvVars { st with activations := applyUpdates st.activations us } lowest
  (r.1, cascadeEffects us ++ r.2)

/-! ### `ItemUpdater::freeSpace` (item_updater.cpp:671-723) -/

/-- Priority assigned for the eviction queue: a `Failed` activation (or an
`Active` one whose `RedundancyPriority` is not initialized) gets the
sentinel 999; an `Active` one with a priority gets that priority. -/
def queuePriority (a : ActState) : Nat :=
  match a.activationState, a.redundancyPriority with
  | Activations.Active, some p => p
  | _, _ => 999

/-- `versions.find(id)->second->isFunctional()`. -/
def isFunctionalIn (st : UpdState) (k : String) : Bool :=
  (mapLookup st.versions k).getD false

/-- The activations counted by `freeSpace`: currently `Active` or `Failed`. -/
def afEntries (st : UpdState) : List (String × ActState) :=
  st.activations.filter
    (fun ka => ka.2.activationState = Activations.Active ∨
               ka.2.activationState = Activations.Failed)

def countAF (st : UpdState) : Nat := (afEntries st).length

/-- The eviction candidates pushed on the priority queue: `Active`/`Failed`
activations, excluding the functional version when more than one active slot
is allowed, and always excluding the caller. -/
def pqCandidates (maxAllowed : Nat) (st : UpdState) (callerVid : String) :
    List (Nat × String) :=
  ((afEntries st).filter
      (fun ka => ¬ ((isFunctionalIn st ka.2.versionId = true ∧ 1 < maxAllowed) ∨
                    ka.2.versionId = callerVid))).map
    (fun ka => (queuePriority ka.2, ka.2.versionId))

/-- `std::priority_queue` pop order on `std::pair<int, std::string>` with
`std::less`: greatest pair first, i.e. descending priority with ties by
descending version id. -/
def pqGe (a b : Nat × String) : Prop :=
  b.1 < a.1 ∨ (a.1 = b.1 ∧ ¬ a.2 < b.2)

instance : DecidableRel pqGe := fun a b => by
  unfold pqGe; infer_instance

def pqInsert (x : Nat × String) : List (Nat × String) → List (Nat × String)
  | [] => [x]
  | y :: t => if pqGe x y then x :: y :: t else y :: pqInsert x t

def pqSort : List (Nat × String) → List (Nat × String)
  | [] => []
  | x :: t => pqInsert x (pqSort t)

/-- The eviction loop: while the count of `Active`/`Failed` images is at
least `ACTIVE_BMC_MAX_ALLOWED` and candidates remain, erase the top
candidate.  Returns the final state, the erased ids in order, and the
accumulated effects. -/
def freeSpaceLoop (maxAllowed : Nat) :
    List (Nat × String) → Nat → UpdState → UpdState × List String × List Effect
  | [], _, st => (st, [], [])
  | (_, v) :: rest, count, st =>
      if maxAllowed ≤ count then
        let r1 := eraseOp maxAllowed st v
        let r2 := freeSpaceLoop maxAllowed rest (count - 1) r1.1
        (r2.1, v :: r2.2.1, r1.2 ++ r2.2.2)
      else (st, [], [])

/-- `ItemUpdater::freeSpace(caller)`; `callerVid` is `caller.versionId`. -/
def freeSpace (maxAllowed : Nat) (st : UpdState) (callerVid : String) :
    UpdState × List String × List Effect :=
  freeSpaceLoop maxAllowed (pqSort (pqCandidates maxAllowed st callerVid))
    (countAF st) st

/-! ### The activation state machine (activation.cpp)

`Activation::activation` / `Activation::requestedActivation` /
`Activation::onFlashWriteSuccess` acting on the local `Activation` fields.
Outcomes of external checks and the build configuration are an explicit
environment; calls that only touch external collaborators
(`parent.freeSpace`, systemd subscribe/unsubscribe, `flashWrite`,
`storePurpose`, association creation, `deleteImageManagerObject`,
`rebootBmc`) act on the parent or the bus, not on these fields. -/

/-- Build configuration and external-check outcomes for one
`Activation::activation` call. -/
structure ActEnv where
  /-- `WANT_SIGNATURE_VERIFY` is defined. -/
  sigVerifyEnabled : Bool
  /-- `verifySignature(...)` result. -/
  signatureOk : Bool
  /-- `parent.control::FieldMode::fieldModeEnabled()`. -/
  fieldMode : Bool
  /-- `HOST_BIOS_UPGRADE` is defined and this version's purpose is `Host`. -/
  hostBiosPurpose : Bool
  /-- `minimum_ship_level::verify(versionStr)` result. -/
  mslOk : Bool
  /-- Neither `UBIFS_LAYOUT` nor `MMC_LAYOUT` is defined (static layout:
  flash write completes synchronously). -/
  staticLayout : Bool
deriving DecidableEq, Repr

/-- The base-class (`softwareServer::Activation::activation`) property
setter: store the new state, nothing else. -/
def baseActivationSet (s : ActState) (v : Activations) : ActState :=
  { s with activationState := v }

/-- `Activation::onFlashWriteSuccess` (activation.cpp:188-229): progress
100, release progress/blocking guard, clear the write-phase flags, create
`RedundancyPriority` at 0 if absent, then `activation(Active)` (inlined: for
a non-`Activating` value the override only resets the two guard objects
again and stores the state). -/
def onFlashWriteSuccess (s : ActState) : ActState :=
  let s1 := { s with activationProgress := some 100 }
  let s2 := { s1 with activationBlocksTransition := false,
                      activationProgress := none,
                      rwVolumeCreated := false,
                      roVolumeCreated := false,
                      ubootEnvVarsUpdated := false }
  let s3 :=
    if s2.redundancyPriority = none then
      { s2 with redundancyPriority := some 0 }
    else s2
  baseActivationSet
    { s3 with activationBlocksTransition := false, activationProgress := none }
    Activations.Active

/-- `Activation::activation(value)` (activation.cpp:83-186). -/
def activation (env : ActEnv) (s : ActState) (value : Activations) : ActState :=
  let s1 :=
    if ¬ value = Activations.Active ∧ ¬ value = Activations.Activating then
      { s with redundancyPriority := none }
    else s
  if value = Activations.Activating then
    if env.sigVerifyEnabled ∧ ¬ env.signatureOk = true ∧ env.fieldMode then
      baseActivationSet s1 Activations.Failed
    else if env.hostBiosPurpose then
      baseActivationSet { s1 with activationProgress := some 20 } value
    else if ¬ env.mslOk = true then
      baseActivationSet s1 Activations.Failed
    else
      let s2 := { s1 with activationProgress := some 10,
                          activationBlocksTransition := true }
      if env.staticLayout then
        baseActivationSet (onFlashWriteSuccess s2) Activations.Active
      else
        baseActivationSet s2 value
  else
    baseActivationSet
      { s1 with activationBlocksTransition := false, activationProgress := none }
      value

/-- The unconditional first step of `Activation::requestedActivation`:
clear the three write-phase flags. -/
def clearWriteFlags (s : ActState) : ActState :=
  { s with rwVolumeCreated := false, roVolumeCreated := false,
           ubootEnvVarsUpdated := false }

/-- `Activation::requestedActivation(value)` (activation.cpp:249-270):
always clear the three write-phase flags; trigger `activation(Activating)`
only when the written value is `Active`, the stored requested value is not
already `Active`, and the current state is `Ready` or `Failed`; finally
store the written value.  The Bool records whether the transition was
triggered. -/
def requestedActivation (env : ActEnv) (s : ActState)
    (value : RequestedActivations) : ActState × Bool :=
  let s1 := clearWriteFlags s
  if value = RequestedActivations.Active ∧
     ¬ s1.requestedActivation = RequestedActivations.Active ∧
     (s1.activationState = Activations.Ready ∨
      s1.activationState = Activations.Failed) then
    ({ activation env s1 Activations.Activating with requestedActivation := value },
     true)
  else
    ({ s1 with requestedActivation := value }, false)

/-! ### Proof-support definitions for the `freePriority` cascade -/

/-- The sorted snapshot with the cascade's priority reassignments applied in
place: the entry matching the running free value is shown with its bumped
priority, every other entry with its snapshot priority.  Used to reason
about the combined effect of the `cascade` updates. -/
def cascadeApply (versionId : String) : Nat → List (String × Nat) → List (String × Nat)
  | _, [] => []
  | free, kp :: rest =>
      if kp.1 = versionId then kp :: cascadeApply versionId free rest
      else if kp.2 = free then
        (kp.1, (free + 1) % 256) :: cascadeApply versionId ((free + 1) % 256) rest
      else kp :: cascadeApply versionId free rest

/-- Overlay an update list on a snapshot: each snapshot entry whose key has
an update takes the updated priority. -/
def withUpdates (us : List (String × Nat)) (l : List (String × Nat)) :
    List (String × Nat) :=
  l.map (fun kp =>
    match mapLookup us kp.1 with
    | some q => (kp.1, q)
    | none => kp)

/-! ### Concrete registry fixtures used by witnesses and counterexamples -/

/-- An `Activation` object with the given id, state and priority and all
other fields at their initial values. -/
def mkAct (vid : String) (st : Activations) (rp : Option Nat) : ActState :=
  { versionId := vid, path := "/xyz/openbmc_project/software/" ++ vid,
    activationState := st, requestedActivation := RequestedActivations.None,
    redundancyPriority := rp, activationProgress := none,
    activationBlocksTransition := false, rwVolumeCreated := false,
    roVolumeCreated := false, ubootEnvVarsUpdated := false }

/-- Three Active images, two of which (aa, bb) already share priority 5. -/
def stDup : UpdState :=
  { versions := [("aa", false), ("bb", false), ("cc", false)],
    activations := [("aa", mkAct "aa" Activations.Active (some 5)),
                    ("bb", mkAct "bb" Activations.Active (some 5)),
                    ("cc", mkAct "cc" Activations.Active (some 0))],
    assocs := [], bootEnv := "cc" }

/-- Steady state: distinct priorities apart from bb, which was just set to
0 while aa still holds 0. -/
def stSteady : UpdState :=
  { versions := [("aa", false), ("bb", false), ("cc", false)],
    activations := [("aa", mkAct "aa" Activations.Active (some 0)),
                    ("bb", mkAct "bb" Activations.Active (some 0)),
                    ("cc", mkAct "cc" Activations.Active (some 1))],
    assocs := [], bootEnv := "aa" }

/-- A registry holding a single non-functional Active image. -/
def stSingle : UpdState :=
  { versions := [("aa", false)],
    activations := [("aa", mkAct "aa" Activations.Active (some 0))],
    assocs := [], bootEnv := "aa" }

/-- A registry whose only image is the running (functional) one. -/
def stFunc : UpdState :=
  { versions := [("ff", true)],
    activations := [("ff", mkAct "ff" Activations.Active (some 0))],
    assocs := [], bootEnv := "ff" }

/-- A registry with activations but no initialized priority (fresh system). -/
def stFresh : UpdState :=
  { versions := [("aa", false)],
    activations := [("aa", mkAct "aa" Activations.Active none)],
    assocs := [], bootEnv := "" }

/-- Functional A (priority 0), B (priority 1), Failed C, Ready caller D. -/
def stPool : UpdState :=
  { versions := [("A", true), ("B", false), ("C", false), ("D", false)],
    activations := [("A", mkAct "A" Activations.Active (some 0)),
                    ("B", mkAct "B" Activations.Active (some 1)),
                    ("C", mkAct "C" Activations.Failed none),
                    ("D", mkAct "D" Activations.Ready none)],
    assocs := [], bootEnv := "A" }

/-- Environment: no signature verification, BMC purpose, MSL passes, static
layout. -/
def envDefault : ActEnv :=
  { sigVerifyEnabled := false, signatureOk := true, fieldMode := false,
    hostBiosPurpose := false, mslOk := true, staticLayout := true }

/-- Environment in which the minimum-ship-level check fails. -/
def envMslFail : ActEnv := { envDefault with mslOk := false }

/-- A Failed activation whose stored requested value is still Active
(the state after a failed activation attempt; nothing in the sources resets
`requestedActivation`). -/
def sFailedReq : ActState :=
  { mkAct "vv" Activations.Failed none with
      requestedActivation := RequestedActivations.Active }

/-- A Ready activation with no pending request. -/
def sReady : ActState := mkAct "vv" Activations.Ready none

/-- An Active activation holding priority 0. -/
def sActiveRp : ActState := mkAct "vv" Activations.Active (some 0)

end Updater

namespace minimum_ship_level

/-! ### `minimum_ship_level` (msl_verify.cpp)

`parse` runs `std::regex_search` with the configured `REGEX_BMC_MSL` and
reads capture groups 2-4.  The regex engine is external to the sources, so
the match outcome is a parameter `matchf`: `none` models a failed
`regex_search`, `some (a, b, c)` a match with those three numeric groups. -/

/-- `minimum_ship_level::Version` (msl_verify.hpp). -/
structure Version where
  major : Nat
  minor : Nat
  rev : Nat
deriving DecidableEq, Repr

/-- `minimum_ship_level::compare`. -/
def compare (versionToCompare mslVersion : Version) : Int :=
  if versionToCompare.major > mslVersion.major then 1
  else if versionToCompare.major < mslVersion.major then -1
  else if versionToCompare.minor > mslVersion.minor then 1
  else if versionToCompare.minor < mslVersion.minor then -1
  else if versionToCompare.rev > mslVersion.rev then 1
  else if versionToCompare.rev < mslVersion.rev then -1
  else 0

/-- `minimum_ship_level::parse`: `outVersion` starts at `{0, 0, 0}` and is
left there when the pattern does not match. -/
def parse (matchf : String → Option (Nat × Nat × Nat)) (inpVersion : String) :
    Version :=
  match matchf inpVersion with
  | none => ⟨0, 0, 0⟩
  | some (a, b, c) => ⟨a, b, c⟩

/-- `minimum_ship_level::verify`: `msl` is the configured `BMC_MSL`,
`mslRegex` the configured `REGEX_BMC_MSL`. -/
def verify (msl mslRegex : String) (matchf : String → Option (Nat × Nat × Nat))
    (versionManifest : String) : Bool :=
  if msl = "" ∨ mslRegex = "" then true
  else if compare (parse matchf versionManifest) (parse matchf msl) < 0 then false
  else true

/-- Lexicographic strict order on `(major, minor, rev)` tuples. -/
def lexLt (a b : Version) : Prop :=
  a.major < b.major ∨
    (a.major = b.major ∧
      (a.minor < b.minor ∨ (a.minor = b.minor ∧ a.rev < b.rev)))

instance : DecidableRel lexLt := fun a b => by
  unfold lexLt; infer_instance

/-- A concrete regex-match outcome used by witnesses: "x" parses to
2.3.3, "2.3.4" to 2.3.4, everything else fails to match. -/
def mslMatchFix (s : String) : Option (Nat × Nat × Nat) :=
  if s = "x" then some (2, 3, 3)
  else if s = "2.3.4" then some (2, 3, 4)
  else none

end minimum_ship_level

/-! ## Theorems -/

namespace Updater

/-! ### Association-list lemmas -/

theorem mapKeys_nil {α : Type} : mapKeys ([] : List (String × α)) = [] := rfl

theorem mapKeys_cons {α : Type} (a : String) (c : α) (t : List (String × α)) :
    mapKeys ((a, c) :: t) = a :: mapKeys t := rfl

theorem mem_of_mapLookup {α : Type} {l : List (String × α)} {k : String} {b : α}
    (h : mapLookup l k = some b) : (k, b) ∈ l := by
  induction l with
  | nil => exact absurd h (by simp [mapLookup])
  | cons hd t ih =>
      obtain ⟨a, c⟩ := hd
      by_cases hak : a = k
      · subst hak
        rw [mapLookup, if_pos rfl, Option.some.injEq] at h
        subst h
        exact List.mem_cons_self _ _
      · rw [mapLookup, if_neg hak] at h
        exact List.mem_cons_of_mem _ (ih h)

theorem mapLookup_eq_none_of_not_mem_keys {α : Type} {l : List (String × α)}
    {k : String} (h : k ∉ mapKeys l) : mapLookup l k = none := by
  induction l with
  | nil => rfl
  | cons hd t ih =>
      obtain ⟨a, c⟩ := hd
      rw [mapKeys_cons] at h
      have ha : ¬ a = k := fun he => h (he ▸ List.mem_cons_self a (mapKeys t))
      rw [mapLookup, if_neg ha]
      exact ih (fun hm => h (List.mem_cons_of_mem _ hm))

theorem not_mem_keys_of_mapLookup_eq_none {α : Type} {l : List (String × α)}
    {k : String} (h : mapLookup l k = none) : k ∉ mapKeys l := by
  induction l with
  | nil => simp [mapKeys_nil]
  | cons hd t ih =>
      obtain ⟨a, c⟩ := hd
      by_cases hak : a = k
      · rw [mapLookup, if_pos hak] at h
        exact absurd h (by simp)
      · rw [mapLookup, if_neg hak] at h
        rw [mapKeys_cons]
        intro hm
        rcases List.mem_cons.mp hm with h1 | h2
        · exact hak h1.symm
        · exact ih h h2

theorem mapLookup_of_mem {α : Type} {l : List (String × α)} {k : String} {b : α}
    (hs : KeysSorted l) (h : (k, b) ∈ l) : mapLookup l k = some b := by
  induction l with
  | nil => exact absurd h (List.not_mem_nil _)
  | cons hd t ih =>
      obtain ⟨a, c⟩ := hd
      rcases List.mem_cons.mp h with h1 | h2
      · rw [Prod.mk.injEq] at h1
        rw [mapLookup, if_pos h1.1.symm, h1.2]
      · have hkt : ¬ a = k := by
          intro he
          subst he
          exact (List.pairwise_cons.mp hs).1 _ h2 rfl
        rw [mapLookup, if_neg hkt]
        exact ih (List.pairwise_cons.mp hs).2 h2

theorem mapErase_sublist {α : Type} (l : List (String × α)) (k : String) :
    (mapErase l k).Sublist l := by
  induction l with
  | nil => exact List.Sublist.refl _
  | cons hd t ih =>
      obtain ⟨a, c⟩ := hd
      by_cases hak : a = k
      · rw [mapErase, if_pos hak]
        exact List.sublist_cons_self _ _
      · rw [mapErase, if_neg hak]
        exact ih.cons₂ (a, c)

theorem keysSorted_mapErase {α : Type} {l : List (String × α)} {k : String}
    (hs : KeysSorted l) : KeysSorted (mapErase l k) :=
  hs.sublist (mapErase_sublist l k)

theorem mem_mapErase_of_ne {α : Type} {l : List (String × α)} {k id : String}
    {b : α} (h : (k, b) ∈ l) (hne : k ≠ id) : (k, b) ∈ mapErase l id := by
  induction l with
  | nil => exact absurd h (List.not_mem_nil _)
  | cons hd t ih =>
      obtain ⟨a, c⟩ := hd
      rcases List.mem_cons.mp h with h1 | h2
      · rw [Prod.mk.injEq] at h1
        have hai : ¬ a = id := fun he => hne (h1.1.trans he)
        rw [mapErase, if_neg hai]
        exact List.mem_cons.mpr (Or.inl (by rw [Prod.mk.injEq]; exact ⟨h1.1, h1.2⟩))
      · by_cases hai : a = id
        · rw [mapErase, if_pos hai]
          exact h2
        · rw [mapErase, if_neg hai]
          exact List.mem_cons_of_mem _ (ih h2)

theorem mapLookup_mapErase_self {α : Type} {l : List (String × α)} {k : String}
    (hs : KeysSorted l) : mapLookup (mapErase l k) k = none := by
  induction l with
  | nil => rfl
  | cons hd t ih =>
      obtain ⟨a, c⟩ := hd
      by_cases hak : a = k
      · subst hak
        rw [mapErase, if_pos rfl]
        apply mapLookup_eq_none_of_not_mem_keys
        intro hmem
        obtain ⟨⟨k', b'⟩, hmem', he⟩ := List.mem_map.mp hmem
        have hne := (List.pairwise_cons.mp hs).1 _ hmem'
        rw [show (k', b').1 = k' from rfl] at he
        subst he
        exact hne rfl
      · rw [mapErase, if_neg hak, mapLookup, if_neg hak]
        exact ih (List.pairwise_cons.mp hs).2

theorem mapLookup_mapErase_ne {α : Type} (l : List (String × α))
    (k id : String) (hne : k ≠ id) :
    mapLookup (mapErase l id) k = mapLookup l k := by
  induction l with
  | nil => rfl
  | cons hd t ih =>
      obtain ⟨a, c⟩ := hd
      by_cases hai : a = id
      · have hak : ¬ a = k := fun he => hne (he.symm.trans hai)
        rw [mapErase, if_pos hai]
        simp only [mapLookup, if_neg hak]
      · by_cases hak : a = k
        · rw [mapErase, if_neg hai]
          simp only [mapLookup, if_pos hak]
        · rw [mapErase, if_neg hai]
          simp only [mapLookup, if_neg hak]
          exact ih

theorem keys_nodup_of_sorted {α : Type} {l : List (String × α)}
    (hs : KeysSorted l) : (mapKeys l).Nodup := by
  unfold mapKeys
  exact List.Pairwise.map Prod.fst (fun a b h => h) hs

/-! ### C3: erase of the functional image refuses with no mutation -/

/-- C3: for every registry state, `erase(id)` where `id` names the
currently-running functional version while `ACTIVE_BMC_MAX_ALLOWED > 1`
returns with no mutation at all: the whole state (version map, activation
map, associations, boot pointer) is returned unchanged and no external
effect is issued. -/
theorem erase_functional_no_mutation (maxAllowed : Nat) (st : UpdState)
    (entryId : String) (hf : mapLookup st.versions entryId = some true)
    (hm : 1 < maxAllowed) :
    eraseOp maxAllowed st entryId = (st, []) := by
  rw [eraseOp, if_pos ⟨hf, hm⟩]

/-- Witness: erasing the functional image of `stFunc` with max 2 slots is
refused without any mutation. -/
theorem erase_functional_no_mutation_witness :
    mapLookup stFunc.versions "ff" = some true ∧ 1 < 2 ∧
      eraseOp 2 stFunc "ff" = (stFunc, []) :=
  ⟨by decide, by decide,
   erase_functional_no_mutation 2 stFunc "ff" (by decide) (by decide)⟩

/-! ### C4: boot-target recomputation on a fresh system -/

theorem foldl_lowestStep_all_none (l : List (String × ActState))
    (acc : Nat × String)
    (h : ∀ ka ∈ l, ka.2.redundancyPriority = none) :
    l.foldl lowestStep acc = acc := by
  induction l generalizing acc with
  | nil => rfl
  | cons hd t ih =>
      have hhd : hd.2.redundancyPriority = none := h hd (List.mem_cons_self _ _)
      rw [List.foldl_cons, lowestStep, hhd]
      exact ih acc (fun ka hka => h ka (List.mem_cons_of_mem _ hka))

/-- C4 (amended): when no activation holds an initialized redundancy
priority, `resetUbootEnvVars` still invokes the boot-environment update,
passing the default-constructed (empty) version id — it is not a no-op on
the persisted variable. -/
theorem resetUbootEnvVars_fresh (st : UpdState)
    (h : ∀ ka ∈ st.activations, ka.2.redundancyPriority = none) :
    resetUbootEnvVars st = ({ st with bootEnv := "" }, [Effect.updateUboot ""]) := by
  unfold resetUbootEnvVars updateUbootEnvVars lowestPriorityScan
  rw [foldl_lowestStep_all_none _ _ h]

/-- Witness: in `stFresh` no activation holds a priority, and the
recomputation writes the empty version id. -/
theorem resetUbootEnvVars_fresh_witness :
    (∀ ka ∈ stFresh.activations, ka.2.redundancyPriority = none) ∧
      resetUbootEnvVars stFresh =
        ({ stFresh with bootEnv := "" }, [Effect.updateUboot ""]) :=
  ⟨by decide, resetUbootEnvVars_fresh stFresh (by decide)⟩

/-- C4 counterexample: on the fresh system `stFresh`,
`resetUbootEnvVars` performs a write to the persisted boot-environment
variable (of the empty id) rather than no write at all. -/
theorem resetUbootEnvVars_fresh_counterexample :
    (resetUbootEnvVars stFresh).2 = [Effect.updateUboot ""] ∧
      ¬ (resetUbootEnvVars stFresh).2 = [] := by
  constructor
  · decide
  · decide

/-! ### C10: the collision cascade wraps at 255 -/

/-- C10: in the `freePriority` collision cascade, when a colliding entry is
found while the running free value is 255, the `uint8_t` increment wraps to
0 and the cascaded entry is assigned priority 0. -/
theorem cascade_wraps_to_zero (versionId k : String)
    (rest : List (String × Nat)) (h : ¬ k = versionId) :
    cascade versionId 255 ((k, 255) :: rest) =
      (k, 0) :: cascade versionId 0 rest := by
  rw [cascade]
  norm_num [h]

/-- Witness: a concrete cascade in which the colliding entry at 255 is
reassigned priority 0. -/
theorem cascade_wraps_to_zero_witness :
    (¬ "kk" = "vv") ∧
      cascade "vv" 255 [("kk", 255), ("ll", 0)] =
        ("kk", 0) :: cascade "vv" 0 [("ll", 0)] :=
  ⟨by decide, cascade_wraps_to_zero "vv" "kk" [("ll", 0)] (by decide)⟩

/-! ### C8: the requestedActivation trigger -/

theorem activation_keeps_cleared_flags (env : ActEnv) (s : ActState)
    (v : Activations) (hrw : s.rwVolumeCreated = false)
    (hro : s.roVolumeCreated = false) (hub : s.ubootEnvVarsUpdated = false) :
    (activation env s v).rwVolumeCreated = false ∧
      (activation env s v).roVolumeCreated = false ∧
      (activation env s v).ubootEnvVarsUpdated = false := by
  cases hrp : s.redundancyPriority <;>
    · unfold activation onFlashWriteSuccess baseActivationSet
      split_ifs <;> simp_all

/-- C8 (amended): writing `requestedActivation = Active` always clears the
three write-phase flags first; it triggers the `Activating` transition
exactly when the current state is `Ready` or `Failed` AND the stored
requested value is not already `Active`; while the state is `Activating` or
`Active` it is a no-op on the state and the priority. -/
theorem requestedActivation_spec (env : ActEnv) (s : ActState)
    (value : RequestedActivations) :
    ((requestedActivation env s value).1.rwVolumeCreated = false ∧
     (requestedActivation env s value).1.roVolumeCreated = false ∧
     (requestedActivation env s value).1.ubootEnvVarsUpdated = false)
    ∧ (value = RequestedActivations.Active →
       ¬ s.requestedActivation = RequestedActivations.Active →
       (s.activationState = Activations.Ready ∨
        s.activationState = Activations.Failed) →
       (requestedActivation env s value).2 = true ∧
       (requestedActivation env s value).1 =
         { activation env (clearWriteFlags s) Activations.Activating with
             requestedActivation := value })
    ∧ ((s.activationState = Activations.Activating ∨
        s.activationState = Activations.Active) →
       (requestedActivation env s value).2 = false ∧
       (requestedActivation env s value).1.activationState = s.activationState ∧
       (requestedActivation env s value).1.redundancyPriority =
         s.redundancyPriority) := by
  refine ⟨?_, ?_, ?_⟩
  · rw [requestedActivation]
    split_ifs with hcond
    · have := activation_keeps_cleared_flags env (clearWriteFlags s)
        Activations.Activating (by simp [clearWriteFlags]) (by simp [clearWriteFlags])
        (by simp [clearWriteFlags])
      simpa using this
    · simp [clearWriteFlags]
  · intro hv hreq hst
    have hc : value = RequestedActivations.Active ∧
        ¬ (clearWriteFlags s).requestedActivation = RequestedActivations.Active ∧
        ((clearWriteFlags s).activationState = Activations.Ready ∨
         (clearWriteFlags s).activationState = Activations.Failed) :=
      ⟨hv, by simpa [clearWriteFlags] using hreq,
       by simpa [clearWriteFlags] using hst⟩
    rw [requestedActivation, if_pos hc]
    exact ⟨rfl, rfl⟩
  · intro hst
    have hcond : ¬ (value = RequestedActivations.Active ∧
        ¬ (clearWriteFlags s).requestedActivation = RequestedActivations.Active ∧
        ((clearWriteFlags s).activationState = Activations.Ready ∨
         (clearWriteFlags s).activationState = Activations.Failed)) := by
      rintro ⟨-, -, h3⟩
      rcases hst with h | h <;> simp [clearWriteFlags, h] at h3
    rw [requestedActivation, if_neg hcond]
    exact ⟨rfl, by simp [clearWriteFlags], by simp [clearWriteFlags]⟩

/-- Witness: on a Ready activation with no pending request, writing
`Active` triggers the transition. -/
theorem requestedActivation_spec_witness :
    (sReady.activationState = Activations.Ready ∨
     sReady.activationState = Activations.Failed) ∧
      (requestedActivation envDefault sReady RequestedActivations.Active).2 = true :=
  ⟨by decide,
   ((requestedActivation_spec envDefault sReady RequestedActivations.Active).2.1
     rfl (by decide) (by decide)).1⟩

/-- C8 counterexample: on `sFailedReq` (state Failed but stored request
already Active, the situation after a failed attempt) writing
`requestedActivation = Active` does NOT trigger the Activating transition,
although the claim says any write of Active in state Ready/Failed does. -/
theorem requestedActivation_counterexample :
    (requestedActivation envDefault sFailedReq RequestedActivations.Active).2 = false ∧
      (requestedActivation envDefault sFailedReq
        RequestedActivations.Active).1.activationState = Activations.Failed := by
  constructor
  · decide
  · decide

/-! ### C9: redundancyPriority vs. activation state -/

theorem activation_activating_rp_none (env : ActEnv) (s : ActState)
    (hnone : s.redundancyPriority = none) :
    (activation env s Activations.Activating).redundancyPriority.isSome →
      ((activation env s Activations.Activating).activationState =
          Activations.Active ∨
       (activation env s Activations.Activating).activationState =
          Activations.Activating) := by
  unfold activation onFlashWriteSuccess baseActivationSet
  split_ifs <;> simp_all

theorem activation_activating_succeeds (env : ActEnv) (s : ActState)
    (hsig : ¬ (env.sigVerifyEnabled ∧ ¬ env.signatureOk = true ∧ env.fieldMode))
    (hok : env.hostBiosPurpose = true ∨ env.mslOk = true) :
    (activation env s Activations.Activating).activationState =
        Activations.Active ∨
      (activation env s Activations.Activating).activationState =
        Activations.Activating := by
  unfold activation onFlashWriteSuccess baseActivationSet
  split_ifs <;> simp_all

theorem activation_active_state (env : ActEnv) (s : ActState) :
    (activation env s Activations.Active).activationState =
      Activations.Active := by
  unfold activation onFlashWriteSuccess baseActivationSet
  split_ifs <;> simp_all

theorem activation_clears_rp (env : ActEnv) (s : ActState) (v : Activations)
    (h1 : ¬ v = Activations.Active) (h2 : ¬ v = Activations.Activating) :
    (activation env s v).redundancyPriority = none ∧
      (activation env s v).activationState = v := by
  have hc : ¬ v = Activations.Active ∧ ¬ v = Activations.Activating := ⟨h1, h2⟩
  rw [activation, if_pos hc, if_neg h2]
  exact ⟨rfl, rfl⟩

/-- C9 (amended): a call to `activation(value)` with `value` other than
`Active`/`Activating` clears `redundancyPriority` and enters `value`; the
flash-success path creates the priority (0 if absent) with the state
becoming `Active`; and the invariant "priority populated implies state
Active or Activating" is preserved by every `activation` call, the sole
exception being `activation(Activating)` invoked on an image already
holding a priority when the attempt fails (signature check under field
mode, or minimum ship level): those exits go through the base-class
setter, which enters `Failed` without clearing the priority.  The
hypothesis `hsafe` excludes exactly that exception: whenever the call
requests `Activating` on a priority-holding image, neither failure guard
fires. -/
theorem activation_priority_invariant (env : ActEnv) (s : ActState)
    (v : Activations)
    (hsafe : v = Activations.Activating → s.redundancyPriority.isSome →
      ¬ (env.sigVerifyEnabled ∧ ¬ env.signatureOk = true ∧ env.fieldMode) ∧
      (env.hostBiosPurpose = true ∨ env.mslOk = true)) :
    (¬ v = Activations.Active → ¬ v = Activations.Activating →
      (activation env s v).redundancyPriority = none ∧
      (activation env s v).activationState = v)
    ∧ ((onFlashWriteSuccess s).redundancyPriority =
         some (s.redundancyPriority.getD 0) ∧
       (onFlashWriteSuccess s).activationState = Activations.Active)
    ∧ ((s.redundancyPriority.isSome →
         (s.activationState = Activations.Active ∨
          s.activationState = Activations.Activating)) →
       (activation env s v).redundancyPriority.isSome →
       ((activation env s v).activationState = Activations.Active ∨
        (activation env s v).activationState = Activations.Activating)) := by
  refine ⟨fun h1 h2 => activation_clears_rp env s v h1 h2, ?_, ?_⟩
  · unfold onFlashWriteSuccess baseActivationSet
    cases hrp : s.redundancyPriority <;> simp [hrp]
  · intro _ hpost
    by_cases hv : v = Activations.Activating
    · subst hv
      cases hrp : s.redundancyPriority with
      | none => exact activation_activating_rp_none env s hrp hpost
      | some p =>
        obtain ⟨hsig, hok⟩ := hsafe rfl (by rw [hrp]; rfl)
        exact activation_activating_succeeds env s hsig hok
    · by_cases hv2 : v = Activations.Active
      · subst hv2
        exact Or.inl (activation_active_state env s)
      · have hcl := activation_clears_rp env s v hv2 hv
        rw [hcl.1] at hpost
        exact absurd hpost (by simp)

/-- Witness: a non-Active transition clears the priority of an Active
image holding priority 0, and a successful `Activating` call on that same
priority-holding image preserves the invariant (it ends `Active` or
`Activating`). -/
theorem activation_priority_invariant_witness :
    ((activation envDefault sActiveRp Activations.Ready).redundancyPriority = none ∧
      (activation envDefault sActiveRp Activations.Ready).activationState =
        Activations.Ready) ∧
    ((activation envDefault sActiveRp Activations.Activating).activationState =
        Activations.Active ∨
      (activation envDefault sActiveRp Activations.Activating).activationState =
        Activations.Activating) :=
  ⟨(activation_priority_invariant envDefault sActiveRp Activations.Ready
      (by decide)).1 (by decide) (by decide),
   (activation_priority_invariant envDefault sActiveRp Activations.Activating
      (by decide)).2.2 (by decide) (by decide)⟩

/-! ### Lemmas on `eraseOp` (shared by C2 and C6) -/

theorem foldl_lowestStep_invariant (l : List (String × ActState)) :
    ∀ acc : Nat × String,
      l.foldl lowestStep acc = acc ∨
        ∃ ka ∈ l, ka.2.versionId = (l.foldl lowestStep acc).2 ∧
          ka.2.redundancyPriority = some (l.foldl lowestStep acc).1 := by
  induction l with
  | nil => exact fun acc => Or.inl rfl
  | cons hd t ih =>
      intro acc
      rw [List.foldl_cons]
      cases ha : hd.2.redundancyPriority with
      | none =>
          rw [show lowestStep acc hd = acc by rw [lowestStep, ha]]
          rcases ih acc with h | ⟨ka, hka, h1, h2⟩
          · exact Or.inl h
          · exact Or.inr ⟨ka, List.mem_cons_of_mem _ hka, h1, h2⟩
      | some p =>
          by_cases hle : p ≤ acc.1
          · rw [show lowestStep acc hd = (p, hd.2.versionId) by
              rw [lowestStep, ha]; exact if_pos hle]
            rcases ih (p, hd.2.versionId) with h | ⟨ka, hka, h1, h2⟩
            · refine Or.inr ⟨hd, List.mem_cons_self _ _, ?_, ?_⟩
              · rw [h]
              · rw [h, ha]
            · exact Or.inr ⟨ka, List.mem_cons_of_mem _ hka, h1, h2⟩
          · rw [show lowestStep acc hd = acc by
              rw [lowestStep, ha]; exact if_neg hle]
            rcases ih acc with h | ⟨ka, hka, h1, h2⟩
            · exact Or.inl h
            · exact Or.inr ⟨ka, List.mem_cons_of_mem _ hka, h1, h2⟩

theorem foldl_lowestStep_mem (l : List (String × ActState)) :
    ∀ acc : Nat × String,
      (∃ ka ∈ l, ∃ p, ka.2.redundancyPriority = some p ∧ p ≤ acc.1) →
      ∃ ka ∈ l, ka.2.versionId = (l.foldl lowestStep acc).2 ∧
        ka.2.redundancyPriority = some (l.foldl lowestStep acc).1 := by
  induction l with
  | nil => rintro acc ⟨ka, hka, -⟩; exact absurd hka (List.not_mem_nil _)
  | cons hd t ih =>
      rintro acc ⟨ka, hka, p, hp, hple⟩
      rw [List.foldl_cons]
      cases ha : hd.2.redundancyPriority with
      | none =>
          rw [show lowestStep acc hd = acc by rw [lowestStep, ha]]
          have hkt : ka ∈ t := by
            rcases List.mem_cons.mp hka with h | h
            · rw [h, ha] at hp; exact absurd hp (by simp)
            · exact h
          obtain ⟨kb, hkb, h1, h2⟩ := ih acc ⟨ka, hkt, p, hp, hple⟩
          exact ⟨kb, List.mem_cons_of_mem _ hkb, h1, h2⟩
      | some q =>
          by_cases hle : q ≤ acc.1
          · rw [show lowestStep acc hd = (q, hd.2.versionId) by
              rw [lowestStep, ha]; exact if_pos hle]
            rcases foldl_lowestStep_invariant t (q, hd.2.versionId)
              with h | ⟨kb, hkb, h1, h2⟩
            · exact ⟨hd, List.mem_cons_self _ _, by rw [h], by rw [h]; exact ha⟩
            · exact ⟨kb, List.mem_cons_of_mem _ hkb, h1, h2⟩
          · rw [show lowestStep acc hd = acc by
              rw [lowestStep, ha]; exact if_neg hle]
            have hkt : ka ∈ t := by
              rcases List.mem_cons.mp hka with h | h
              · rw [h, ha] at hp
                rw [Option.some.injEq] at hp
                exact absurd (hp ▸ hple) hle
              · exact h
            obtain ⟨kb, hkb, h1, h2⟩ := ih acc ⟨ka, hkt, p, hp, hple⟩
            exact ⟨kb, List.mem_cons_of_mem _ hkb, h1, h2⟩

theorem eraseOp_acts (maxAllowed : Nat) (st : UpdState) (entryId : String)
    (hwa : KeysSorted st.activations)
    (href : ¬ (mapLookup st.versions entryId = some true ∧ 1 < maxAllowed)) :
    KeysSorted (eraseOp maxAllowed st entryId).1.activations ∧
      mapLookup (eraseOp maxAllowed st entryId).1.activations entryId = none ∧
      ((eraseOp maxAllowed st entryId).1.activations).Sublist st.activations ∧
      ∀ k b, (k, b) ∈ st.activations → ¬ k = entryId →
        (k, b) ∈ (eraseOp maxAllowed st entryId).1.activations := by
  rw [eraseOp, if_neg href]
  cases ha : mapLookup st.activations entryId with
  | none =>
      simp only [ha, resetUbootEnvVars, updateUbootEnvVars]
      split_ifs <;>
        exact ⟨hwa, ha, List.Sublist.refl _, fun k b hm _ => hm⟩
  | some a =>
      simp only [ha, resetUbootEnvVars, updateUbootEnvVars]
      split_ifs <;>
        exact ⟨keysSorted_mapErase hwa, mapLookup_mapErase_self hwa,
          mapErase_sublist _ _, fun k b hm hne => mem_mapErase_of_ne hm hne⟩

theorem eraseOp_lookup_versions_self (maxAllowed : Nat) (st : UpdState)
    (entryId : String) (hwv : KeysSorted st.versions)
    (href : ¬ (mapLookup st.versions entryId = some true ∧ 1 < maxAllowed)) :
    mapLookup (eraseOp maxAllowed st entryId).1.versions entryId = none := by
  rw [eraseOp, if_neg href]
  cases hv : mapLookup st.versions entryId with
  | none =>
      cases ha : mapLookup st.activations entryId <;>
        simp [ha, hv, resetUbootEnvVars, updateUbootEnvVars]
  | some b =>
      cases ha : mapLookup st.activations entryId <;>
        simp [ha, hv, resetUbootEnvVars, updateUbootEnvVars,
          mapLookup_mapErase_self hwv]

theorem eraseOp_bootEnv (maxAllowed : Nat) (st : UpdState) (entryId : String)
    (href : ¬ (mapLookup st.versions entryId = some true ∧ 1 < maxAllowed)) :
    (eraseOp maxAllowed st entryId).1.bootEnv =
      (lowestPriorityScan (eraseOp maxAllowed st entryId).1.activations).2 := by
  rw [eraseOp, if_neg href]
  cases ha : mapLookup st.activations entryId <;>
    · simp only [ha, resetUbootEnvVars, updateUbootEnvVars]
      split_ifs <;> rfl

theorem eraseOp_effects (maxAllowed : Nat) (st : UpdState) (entryId : String)
    (href : ¬ (mapLookup st.versions entryId = some true ∧ 1 < maxAllowed)) :
    (eraseOp maxAllowed st entryId).2 =
      [Effect.updateUboot (eraseOp maxAllowed st entryId).1.bootEnv,
       Effect.removeReadOnlyPartition entryId,
       Effect.removePersistData entryId,
       Effect.clearEntry entryId] := by
  rw [eraseOp, if_neg href]
  cases ha : mapLookup st.activations entryId <;>
    · simp only [ha, resetUbootEnvVars, updateUbootEnvVars]
      split_ifs <;> rfl

/-! ### C2: erase recomputes the boot pointer to a surviving version -/

/-- C2 (amended): on every non-refused `erase(id)` call the activation
entry is removed before the boot-environment pointer is recomputed and the
recomputation is performed (whether or not the id was found), so the new
pointer never names the erased id; and provided some other activation holds
an initialized priority, the new pointer names a version still present in
the activation registry. -/
theorem erase_recomputes_boot (maxAllowed : Nat) (st : UpdState)
    (entryId : String) (hwf : UpdWF st)
    (href : ¬ (mapLookup st.versions entryId = some true ∧ 1 < maxAllowed))
    (k0 : String) (a0 : ActState) (hmem : (k0, a0) ∈ st.activations)
    (hne : ¬ k0 = entryId) (p0 : Nat)
    (hp0 : a0.redundancyPriority = some p0) :
    ¬ (eraseOp maxAllowed st entryId).1.bootEnv = entryId ∧
      (∃ b, mapLookup (eraseOp maxAllowed st entryId).1.activations
          (eraseOp maxAllowed st entryId).1.bootEnv = some b) ∧
      Effect.updateUboot (eraseOp maxAllowed st entryId).1.bootEnv ∈
        (eraseOp maxAllowed st entryId).2 := by
  obtain ⟨hwv, hwa, hfield⟩ := hwf
  obtain ⟨hs, hl, hsub, hkeep⟩ := eraseOp_acts maxAllowed st entryId hwa href
  have hp0b : p0 ≤ 255 := by
    have hb := (hfield (k0, a0) hmem).2
    rw [hp0] at hb
    exact Nat.lt_succ_iff.mp hb
  have hboot := eraseOp_bootEnv maxAllowed st entryId href
  obtain ⟨ka, hka, hvid, hrp⟩ :=
    foldl_lowestStep_mem (eraseOp maxAllowed st entryId).1.activations (255, "")
      ⟨(k0, a0), hkeep k0 a0 hmem hne, p0, hp0, hp0b⟩
  have hkey : ka.2.versionId = ka.1 := (hfield ka (hsub.subset hka)).1
  have hbka : (eraseOp maxAllowed st entryId).1.bootEnv = ka.1 := by
    rw [hboot]
    unfold lowestPriorityScan
    rw [← hvid, hkey]
  refine ⟨?_, ?_, ?_⟩
  · intro hcontra
    rw [hbka] at hcontra
    have : mapLookup (eraseOp maxAllowed st entryId).1.activations ka.1 =
        some ka.2 := mapLookup_of_mem hs (by rw [show (ka.1, ka.2) = ka from rfl]; exact hka)
    rw [hcontra] at this
    rw [hl] at this
    exact absurd this (by simp)
  · refine ⟨ka.2, ?_⟩
    rw [hbka]
    exact mapLookup_of_mem hs (by rw [show (ka.1, ka.2) = ka from rfl]; exact hka)
  · rw [eraseOp_effects maxAllowed st entryId href]
    exact List.mem_cons_self _ _

/-- Witness: erasing bb from the steady registry leaves the boot pointer
on a surviving version. -/
theorem erase_recomputes_boot_witness :
    UpdWF stSteady ∧
      (¬ (eraseOp 2 stSteady "bb").1.bootEnv = "bb" ∧
        (∃ b, mapLookup (eraseOp 2 stSteady "bb").1.activations
            (eraseOp 2 stSteady "bb").1.bootEnv = some b) ∧
        Effect.updateUboot (eraseOp 2 stSteady "bb").1.bootEnv ∈
          (eraseOp 2 stSteady "bb").2) :=
  ⟨by decide,
   erase_recomputes_boot 2 stSteady "bb" (by decide) (by decide) "aa"
     (mkAct "aa" Activations.Active (some 0)) (by decide) (by decide) 0
     (by decide)⟩

/-- C2 counterexample: erasing the only activation leaves the registry
empty and the recomputed pointer is the empty id, which names no version
present in the registry — the claim that the pointer always names a
surviving version fails. -/
theorem erase_boot_counterexample :
    (eraseOp 2 stSingle "aa").1.activations = [] ∧
      (eraseOp 2 stSingle "aa").1.bootEnv = "" ∧
      mapLookup (eraseOp 2 stSingle "aa").1.activations
        (eraseOp 2 stSingle "aa").1.bootEnv = none := by
  refine ⟨?_, ?_, ?_⟩ <;> decide

/-! ### C6: erase is idempotent with defensive cleanup -/

/-- C6 (amended): for every id whose erase is not refused (any id other
than the functional image while more than one active slot is allowed),
`erase` is idempotent: a second call on the same id leaves the in-memory
version and activation maps (and the recomputed boot pointer) unchanged,
and still performs the defensive storage cleanup — removing the read-only
partition, the persisted data directory, and the helper's priority entry.
(A refused id is a no-op on both calls, with no cleanup on either.) -/
theorem erase_idempotent (maxAllowed : Nat) (st : UpdState) (entryId : String)
    (hwf : UpdWF st)
    (href : ¬ (mapLookup st.versions entryId = some true ∧ 1 < maxAllowed)) :
    (eraseOp maxAllowed (eraseOp maxAllowed st entryId).1 entryId).1.versions =
        (eraseOp maxAllowed st entryId).1.versions ∧
      (eraseOp maxAllowed (eraseOp maxAllowed st entryId).1 entryId).1.activations =
        (eraseOp maxAllowed st entryId).1.activations ∧
      (eraseOp maxAllowed (eraseOp maxAllowed st entryId).1 entryId).1.bootEnv =
        (eraseOp maxAllowed st entryId).1.bootEnv ∧
      (eraseOp maxAllowed (eraseOp maxAllowed st entryId).1 entryId).2 =
        [Effect.updateUboot (eraseOp maxAllowed st entryId).1.bootEnv,
         Effect.removeReadOnlyPartition entryId,
         Effect.removePersistData entryId,
         Effect.clearEntry entryId] := by
  obtain ⟨hwv, hwa, -⟩ := hwf
  have hv1 := eraseOp_lookup_versions_self maxAllowed st entryId hwv href
  have ha1 := (eraseOp_acts maxAllowed st entryId hwa href).2.1
  have hboot1 := eraseOp_bootEnv maxAllowed st entryId href
  have href2 : ¬ (mapLookup (eraseOp maxAllowed st entryId).1.versions entryId =
      some true ∧ 1 < maxAllowed) := by
    rw [hv1]
    rintro ⟨h, -⟩
    exact absurd h (by simp)
  rw [eraseOp, if_neg href2]
  simp only [ha1, hv1, resetUbootEnvVars, updateUbootEnvVars, Option.isSome_none,
    Bool.false_eq_true, if_false]
  refine ⟨by trivial, by trivial, hboot1.symm, ?_⟩
  rw [hboot1]
  rfl

/-- Witness: a second erase of aa in `stSingle` leaves the maps unchanged
and still performs the storage cleanup. -/
theorem erase_idempotent_witness :
    UpdWF stSingle ∧
      (eraseOp 2 (eraseOp 2 stSingle "aa").1 "aa").1.activations =
        (eraseOp 2 stSingle "aa").1.activations ∧
      (eraseOp 2 (eraseOp 2 stSingle "aa").1 "aa").2 =
        [Effect.updateUboot (eraseOp 2 stSingle "aa").1.bootEnv,
         Effect.removeReadOnlyPartition "aa",
         Effect.removePersistData "aa",
         Effect.clearEntry "aa"] :=
  ⟨by decide,
   (erase_idempotent 2 stSingle "aa" (by decide) (by decide)).2.1,
   (erase_idempotent 2 stSingle "aa" (by decide) (by decide)).2.2.2⟩

/-- C6 counterexample: for the functional image (with two slots allowed)
the second erase call performs no storage cleanup at all, although the
claim says every second call still performs it. -/
theorem erase_idempotent_counterexample :
    (eraseOp 2 (eraseOp 2 stFunc "ff").1 "ff").2 = [] ∧
      ¬ Effect.removeReadOnlyPartition "ff" ∈
          (eraseOp 2 (eraseOp 2 stFunc "ff").1 "ff").2 := by
  refine ⟨?_, ?_⟩ <;> decide

/-! ### C1: the freePriority collision cascade -/

theorem snapLe_total (a b : String × Nat) : snapLe a b ∨ snapLe b a :=
  Nat.le_total a.2 b.2

theorem snapLe_trans {a b c : String × Nat} (h1 : snapLe a b) (h2 : snapLe b c) :
    snapLe a c :=
  Nat.le_trans h1 h2

theorem mem_snapInsert (x y : String × Nat) (l : List (String × Nat)) :
    y ∈ snapInsert x l ↔ y = x ∨ y ∈ l := by
  induction l with
  | nil => simp [snapInsert]
  | cons hd t ih =>
      rw [snapInsert]
      split_ifs <;> simp only [List.mem_cons, ih] <;> tauto

theorem snapInsert_pairwise (x : String × Nat) (l : List (String × Nat))
    (h : l.Pairwise snapLe) : (snapInsert x l).Pairwise snapLe := by
  induction l with
  | nil => simp [snapInsert]
  | cons hd t ih =>
      rw [snapInsert]
      split_ifs with hx
      · refine List.pairwise_cons.mpr ⟨fun y hy => ?_, h⟩
        rcases List.mem_cons.mp hy with h1 | h2
        · exact h1 ▸ hx
        · exact snapLe_trans hx ((List.pairwise_cons.mp h).1 y h2)
      · refine List.pairwise_cons.mpr
          ⟨fun y hy => ?_, ih (List.pairwise_cons.mp h).2⟩
        rcases (mem_snapInsert x y t).mp hy with h1 | h2
        · subst h1
          rcases snapLe_total y hd with hxh | hhx
          · exact absurd hxh hx
          · exact hhx
        · exact (List.pairwise_cons.mp h).1 y h2

theorem snapSort_pairwise (l : List (String × Nat)) :
    (snapSort l).Pairwise snapLe := by
  induction l with
  | nil => simp [snapSort]
  | cons hd t ih => exact snapInsert_pairwise hd (snapSort t) ih

theorem snapInsert_perm (x : String × Nat) (l : List (String × Nat)) :
    (snapInsert x l).Perm (x :: l) := by
  induction l with
  | nil => exact List.Perm.refl _
  | cons hd t ih =>
      rw [snapInsert]
      split_ifs
      · exact List.Perm.refl _
      · exact (List.Perm.cons hd ih).trans (List.Perm.swap x hd t)

theorem snapSort_perm (l : List (String × Nat)) : (snapSort l).Perm l := by
  induction l with
  | nil => exact List.Perm.refl _
  | cons hd t ih =>
      exact (snapInsert_perm hd (snapSort t)).trans (List.Perm.cons hd ih)

theorem snapSort_snds_mono (l : List (String × Nat)) :
    (snapSort l).Pairwise (fun a b : String × Nat => a.2 ≤ b.2) :=
  (snapSort_pairwise l).imp (fun h => h)

theorem forall2_mem_right {α β : Type} {R : α → β → Prop} :
    ∀ {l : List α} {m : List β}, List.Forall₂ R l m →
      ∀ b ∈ m, ∃ a ∈ l, R a b := by
  intro l m h
  induction h with
  | nil => intro b hb; exact absurd hb (List.not_mem_nil _)
  | @cons a b l' m' hr ht ih =>
      intro c hc
      rcases List.mem_cons.mp hc with h1 | h2
      · exact ⟨a, List.mem_cons_self _ _, h1 ▸ hr⟩
      · obtain ⟨x, hx, hxc⟩ := ih c h2
        exact ⟨x, List.mem_cons_of_mem _ hx, hxc⟩

theorem cascade_entries (vid : String) (L : List (String × Nat)) :
    ∀ f : Nat, (∀ kp ∈ L, ¬ kp.1 = vid → kp.2 ≤ 254) → f ≤ 255 →
      ∀ kq ∈ cascade vid f L, ¬ kq.1 = vid ∧
        ∃ p, (kq.1, p) ∈ L ∧ kq.2 = p + 1 ∧ f ≤ p := by
  induction L with
  | nil => intro f _ _ kq hkq; exact absurd hkq (List.not_mem_nil _)
  | cons hd rest ih =>
      intro f hbound hf kq hkq
      obtain ⟨k, p⟩ := hd
      by_cases hkv : k = vid
      · rw [cascade, if_pos hkv] at hkq
        obtain ⟨h1, q, h2, h3, h4⟩ := ih f
          (fun kp hkp hnv => hbound kp (List.mem_cons_of_mem _ hkp) hnv) hf kq hkq
        exact ⟨h1, q, List.mem_cons_of_mem _ h2, h3, h4⟩
      · have hp254 : p ≤ 254 := hbound (k, p) (List.mem_cons_self _ _) hkv
        by_cases hpf : p = f
        · rw [cascade, if_neg hkv, if_pos hpf] at hkq
          have hmod : (f + 1) % 256 = f + 1 := Nat.mod_eq_of_lt (by omega)
          rw [hmod] at hkq
          rcases List.mem_cons.mp hkq with h1 | h2
          · rw [h1]
            exact ⟨hkv, p, List.mem_cons_self _ _, by omega, by omega⟩
          · obtain ⟨h1, q, h2, h3, h4⟩ := ih (f + 1)
              (fun kp hkp hnv => hbound kp (List.mem_cons_of_mem _ hkp) hnv)
              (by omega) kq h2
            exact ⟨h1, q, List.mem_cons_of_mem _ h2, h3, by omega⟩
        · rw [cascade, if_neg hkv, if_neg hpf] at hkq
          obtain ⟨h1, q, h2, h3, h4⟩ := ih f
            (fun kp hkp hnv => hbound kp (List.mem_cons_of_mem _ hkp) hnv) hf kq hkq
          exact ⟨h1, q, List.mem_cons_of_mem _ h2, h3, h4⟩

theorem cascade_keys_sub (vid : String) (L : List (String × Nat)) :
    ∀ f : Nat, ((cascade vid f L).map Prod.fst).Sublist (L.map Prod.fst) := by
  induction L with
  | nil => intro f; exact List.Sublist.refl _
  | cons hd rest ih =>
      intro f
      obtain ⟨k, p⟩ := hd
      by_cases hkv : k = vid
      · rw [cascade, if_pos hkv]
        exact (ih f).trans (List.sublist_cons_self _ _)
      · by_cases hpf : p = f
        · rw [cascade, if_neg hkv, if_pos hpf]
          rw [List.map_cons, List.map_cons]
          exact (ih ((f + 1) % 256)).cons₂ k
        · rw [cascade, if_neg hkv, if_neg hpf]
          exact (ih f).trans (List.sublist_cons_self _ _)

theorem withUpdates_mem_some {us L : List (String × Nat)} {k : String}
    {p q : Nat} (hmem : (k, p) ∈ L) (hl : mapLookup us k = some q) :
    (k, q) ∈ withUpdates us L := by
  unfold withUpdates
  refine List.mem_map.mpr ⟨(k, p), hmem, ?_⟩
  rw [show ((k, p) : String × Nat).1 = k from rfl, hl]

theorem withUpdates_mem_none {us L : List (String × Nat)} {k : String}
    {p : Nat} (hmem : (k, p) ∈ L) (hl : mapLookup us k = none) :
    (k, p) ∈ withUpdates us L := by
  unfold withUpdates
  refine List.mem_map.mpr ⟨(k, p), hmem, ?_⟩
  rw [show ((k, p) : String × Nat).1 = k from rfl, hl]

theorem withUpdates_cons_ne (a : String) (b : Nat)
    (us L : List (String × Nat)) (hx : ¬ a ∈ L.map Prod.fst) :
    withUpdates ((a, b) :: us) L = withUpdates us L := by
  unfold withUpdates
  apply List.map_congr_left
  intro kp hkp
  have hne : ¬ a = kp.1 := fun he => hx (he ▸ List.mem_map_of_mem Prod.fst hkp)
  rw [mapLookup, if_neg hne]

theorem cascade_lookup_vid_none (vid : String) (L : List (String × Nat))
    (f : Nat) (hbound : ∀ kp ∈ L, ¬ kp.1 = vid → kp.2 ≤ 254) (hf : f ≤ 255) :
    mapLookup (cascade vid f L) vid = none := by
  apply mapLookup_eq_none_of_not_mem_keys
  intro hmem
  obtain ⟨kq, hkq, he⟩ := List.mem_map.mp hmem
  exact (cascade_entries vid L f hbound hf kq hkq).1 he

theorem withUpdates_cons (us : List (String × Nat)) (x : String × Nat)
    (L : List (String × Nat)) :
    withUpdates us (x :: L) =
      (match mapLookup us x.1 with
       | some q => (x.1, q)
       | none => x) :: withUpdates us L := rfl

theorem withUpdates_cascade (vid : String) (L : List (String × Nat)) :
    ∀ f : Nat, (L.map Prod.fst).Nodup →
      (∀ kp ∈ L, ¬ kp.1 = vid → kp.2 ≤ 254) → f ≤ 255 →
      withUpdates (cascade vid f L) L = cascadeApply vid f L := by
  induction L with
  | nil => intro f _ _ _; rfl
  | cons hd rest ih =>
      intro f hkeys hbound hf
      obtain ⟨k, p⟩ := hd
      rw [List.map_cons] at hkeys
      obtain ⟨hknotin, hkeys'⟩ := List.nodup_cons.mp hkeys
      have hbound' : ∀ kp ∈ rest, ¬ kp.1 = vid → kp.2 ≤ 254 :=
        fun kp hkp hnv => hbound kp (List.mem_cons_of_mem _ hkp) hnv
      by_cases hkv : k = vid
      · rw [cascade, if_pos hkv, cascadeApply, if_pos hkv]
        have hhead : mapLookup (cascade vid f rest) ((k, p) : String × Nat).1 = none := by
          rw [show ((k, p) : String × Nat).1 = k from rfl, hkv]
          exact cascade_lookup_vid_none vid rest f hbound' hf
        rw [withUpdates_cons, hhead, ih f hkeys' hbound' hf]
      · have hp254 : p ≤ 254 := hbound (k, p) (List.mem_cons_self _ _) hkv
        by_cases hpf : p = f
        · rw [cascade, if_neg hkv, if_pos hpf, cascadeApply, if_neg hkv, if_pos hpf]
          have hmod : (f + 1) % 256 = f + 1 := Nat.mod_eq_of_lt (by omega)
          rw [hmod]
          rw [withUpdates_cons]
          rw [show mapLookup ((k, f + 1) :: cascade vid (f + 1) rest)
              ((k, p) : String × Nat).1 = some (f + 1) by
            rw [mapLookup]; exact if_pos rfl]
          rw [withUpdates_cons_ne k (f + 1) (cascade vid (f + 1) rest) rest hknotin]
          rw [ih (f + 1) hkeys' hbound' (by omega)]
        · rw [cascade, if_neg hkv, if_neg hpf, cascadeApply, if_neg hkv, if_neg hpf]
          have hhead : mapLookup (cascade vid f rest) ((k, p) : String × Nat).1 = none := by
            apply mapLookup_eq_none_of_not_mem_keys
            intro hmem
            exact hknotin ((cascade_keys_sub vid rest f).subset hmem)
          rw [withUpdates_cons, hhead, ih f hkeys' hbound' hf]

theorem mapLookup_mapSetRp_self (l : List (String × ActState)) (k : String)
    (p : Nat) :
    mapLookup (mapSetRp l k p) k =
      (mapLookup l k).map (fun a => { a with redundancyPriority := some p }) := by
  induction l with
  | nil => rfl
  | cons hd t ih =>
      obtain ⟨a, c⟩ := hd
      by_cases hak : a = k
      · rw [mapSetRp, if_pos hak, mapLookup, if_pos hak, mapLookup, if_pos hak]
        rfl
      · rw [mapSetRp, if_neg hak, mapLookup, if_neg hak, mapLookup, if_neg hak]
        exact ih

theorem mapLookup_mapSetRp_ne (l : List (String × ActState)) (k k' : String)
    (p : Nat) (hne : ¬ k' = k) :
    mapLookup (mapSetRp l k p) k' = mapLookup l k' := by
  induction l with
  | nil => rfl
  | cons hd t ih =>
      obtain ⟨a, c⟩ := hd
      by_cases hak : a = k
      · have hak' : ¬ a = k' := fun he => hne (he.symm.trans hak)
        rw [mapSetRp, if_pos hak, mapLookup, if_neg hak', mapLookup, if_neg hak']
      · by_cases hak' : a = k'
        · rw [mapSetRp, if_neg hak, mapLookup, if_pos hak', mapLookup, if_pos hak']
        · rw [mapSetRp, if_neg hak, mapLookup, if_neg hak', mapLookup, if_neg hak']
          exact ih

theorem mapLookup_applyUpdates (us : List (String × Nat)) :
    ∀ (l : List (String × ActState)) (k : String),
      (us.map Prod.fst).Nodup →
      mapLookup (applyUpdates l us) k =
        (match mapLookup us k with
         | some q =>
             (mapLookup l k).map (fun a => { a with redundancyPriority := some q })
         | none => mapLookup l k) := by
  induction us with
  | nil => intro l k _; rfl
  | cons hd rest ih =>
      intro l k hnodup
      obtain ⟨k0, q0⟩ := hd
      rw [List.map_cons] at hnodup
      obtain ⟨hk0, hrest⟩ := List.nodup_cons.mp hnodup
      rw [applyUpdates]
      by_cases hk : k0 = k
      · subst hk
        have hr0 : mapLookup rest k0 = none :=
          mapLookup_eq_none_of_not_mem_keys hk0
        rw [ih (mapSetRp l k0 q0) k0 hrest, hr0, mapLookup, if_pos rfl]
        exact mapLookup_mapSetRp_self l k0 q0
      · rw [ih (mapSetRp l k0 q0) k hrest, mapLookup, if_neg hk]
        cases hrk : mapLookup rest k with
        | none => exact mapLookup_mapSetRp_ne l k0 k q0 (fun he => hk he.symm)
        | some q =>
            rw [mapLookup_mapSetRp_ne l k0 k q0 (fun he => hk he.symm)]

theorem rpPairs_mem {l : List (String × ActState)} {k : String} {a : ActState}
    {p : Nat} (hka : (k, a) ∈ l) (hp : a.redundancyPriority = some p) :
    (k, p) ∈ rpPairs l := by
  unfold rpPairs
  refine List.mem_filterMap.mpr ⟨(k, a), hka, ?_⟩
  rw [show ((k, a) : String × ActState).2 = a from rfl, hp]
  rfl

theorem mem_rpPairs {l : List (String × ActState)} {k : String} {p : Nat}
    (h : (k, p) ∈ rpPairs l) :
    ∃ a, (k, a) ∈ l ∧ a.redundancyPriority = some p := by
  unfold rpPairs at h
  obtain ⟨⟨k', a⟩, hka, he⟩ := List.mem_filterMap.mp h
  rw [show ((k', a) : String × ActState).2 = a from rfl] at he
  cases hrp : a.redundancyPriority with
  | none => rw [hrp] at he; exact absurd he (by simp)
  | some q =>
      rw [hrp] at he
      simp only [Option.map_some', Option.some.injEq, Prod.mk.injEq] at he
      obtain ⟨he1, he2⟩ := he
      exact ⟨a, he1 ▸ hka, he2 ▸ hrp⟩

theorem rpPairs_keys_sublist (l : List (String × ActState)) :
    ((rpPairs l).map Prod.fst).Sublist (mapKeys l) := by
  induction l with
  | nil => exact List.Sublist.refl _
  | cons hd t ih =>
      obtain ⟨k, a⟩ := hd
      unfold rpPairs
      rw [List.filterMap_cons]
      cases hrp : a.redundancyPriority with
      | none => exact ih.trans (List.sublist_cons_self _ _)
      | some p => exact ih.cons₂ _

/-- The heart of the `freePriority` analysis: walking a snapshot that is
sorted by ascending priority, whose non-requested entries carry pairwise
distinct priorities at most 254, the cascade (shown here applied in place
by `cascadeApply`) bumps each colliding entry by exactly one, never
reassigns the requested version, leaves all resulting priorities pairwise
distinct, and never produces the current free value on a non-requested
entry. -/
theorem cascadeApply_main (vid : String) (v : Nat) (L : List (String × Nat)) :
    ∀ f : Nat,
      L.Pairwise (fun a b : String × Nat => a.2 ≤ b.2) →
      (L.map Prod.fst).Nodup →
      ((L.filter (fun kp => ¬ kp.1 = vid)).map Prod.snd).Nodup →
      (∀ kp ∈ L, ¬ kp.1 = vid → kp.2 ≤ 254) →
      (∀ kp ∈ L, kp.1 = vid → kp.2 = v) →
      v ≤ f → f ≤ 255 →
      (f = v ∨ ∀ kp ∈ L, ¬ kp.1 = vid → f ≤ kp.2) →
      List.Forall₂
        (fun a b : String × Nat =>
          a.1 = b.1 ∧ a.2 ≤ b.2 ∧ b.2 ≤ a.2 + 1 ∧ (a.1 = vid → b.2 = a.2))
        L (cascadeApply vid f L)
      ∧ ((cascadeApply vid f L).map Prod.snd).Nodup
      ∧ (∀ kq ∈ cascadeApply vid f L, ¬ kq.1 = vid → ¬ kq.2 = f) := by
  induction L with
  | nil =>
      intro f _ _ _ _ _ _ _ _
      exact ⟨List.Forall₂.nil, List.nodup_nil,
        fun kq hkq => absurd hkq (List.not_mem_nil _)⟩
  | cons hd rest ih =>
      intro f hsorted hkeys hnv hbound hvids hvf hf255 hstage
      obtain ⟨k, p⟩ := hd
      rw [List.map_cons] at hkeys
      obtain ⟨hknotin, hkeys'⟩ := List.nodup_cons.mp hkeys
      obtain ⟨hsorthead, hsortrest⟩ := List.pairwise_cons.mp hsorted
      have hbound' : ∀ kp ∈ rest, ¬ kp.1 = vid → kp.2 ≤ 254 :=
        fun kp hkp => hbound kp (List.mem_cons_of_mem _ hkp)
      have hvids' : ∀ kp ∈ rest, kp.1 = vid → kp.2 = v :=
        fun kp hkp => hvids kp (List.mem_cons_of_mem _ hkp)
      by_cases hkv : k = vid
      · -- the requested version's own entry: skipped by the walk
        have hpv : p = v := hvids (k, p) (List.mem_cons_self _ _) hkv
        have hfilter : ((k, p) :: rest).filter (fun kp => ¬ kp.1 = vid) =
            rest.filter (fun kp => ¬ kp.1 = vid) := by
          rw [List.filter_cons]
          split_ifs with hcond
          · exact absurd (of_decide_eq_true hcond) (fun hc => hc hkv)
          · rfl
        have hnv' : ((rest.filter (fun kp => ¬ kp.1 = vid)).map Prod.snd).Nodup :=
          hfilter ▸ hnv
        have hstage' : f = v ∨ ∀ kp ∈ rest, ¬ kp.1 = vid → f ≤ kp.2 :=
          hstage.imp id (fun h kp hkp => h kp (List.mem_cons_of_mem _ hkp))
        obtain ⟨ihF, ihN, ihB⟩ :=
          ih f hsortrest hkeys' hnv' hbound' hvids' hvf hf255 hstage'
        rw [cascadeApply, if_pos hkv]
        refine ⟨List.Forall₂.cons ⟨rfl, le_refl _, Nat.le_succ _, fun _ => rfl⟩ ihF,
          ?_, ?_⟩
        · rw [List.map_cons]
          refine List.nodup_cons.mpr ⟨?_, ihN⟩
          intro hmem
          obtain ⟨kq, hkq, he⟩ := List.mem_map.mp hmem
          have he' : kq.2 = p := he
          obtain ⟨kp', hkp', hr1, hr2, hr3, hr4⟩ := forall2_mem_right ihF kq hkq
          by_cases hkp'v : kp'.1 = vid
          · apply hknotin
            rw [show ((k, p) : String × Nat).1 = k from rfl, hkv, ← hkp'v]
            exact List.mem_map_of_mem Prod.fst hkp'
          · have hnvq : ¬ kq.1 = vid := fun hc => hkp'v (hr1.trans hc)
            by_cases hfv : f = v
            · exact ihB kq hkq hnvq (by omega)
            · rcases hstage with h | hall
              · exact absurd h hfv
              · have hfk : f ≤ kp'.2 := hall kp' (List.mem_cons_of_mem _ hkp') hkp'v
                have hr2' : kp'.2 ≤ kq.2 := hr2
                omega
        · intro kq hkq hnv2
          rcases List.mem_cons.mp hkq with h1 | h2
          · exact absurd (by rw [h1]; exact hkv) hnv2
          · exact ihB kq h2 hnv2
      · have hfilter : ((k, p) :: rest).filter (fun kp => ¬ kp.1 = vid) =
            (k, p) :: rest.filter (fun kp => ¬ kp.1 = vid) := by
          rw [List.filter_cons]
          split_ifs with hcond
          · rfl
          · exact absurd (decide_eq_true hkv) hcond
        have hnvcons := hfilter ▸ hnv
        rw [List.map_cons] at hnvcons
        have hpnotin : p ∉ (rest.filter (fun kp => ¬ kp.1 = vid)).map Prod.snd :=
          (List.nodup_cons.mp hnvcons).1
        have hnv' : ((rest.filter (fun kp => ¬ kp.1 = vid)).map Prod.snd).Nodup :=
          (List.nodup_cons.mp hnvcons).2
        have hp254 : p ≤ 254 := hbound (k, p) (List.mem_cons_self _ _) hkv
        by_cases hpf : p = f
        · -- collision: the entry is bumped and the free value advances
          have hstage' : ∀ kp ∈ rest, ¬ kp.1 = vid → f + 1 ≤ kp.2 := by
            intro kp hkp hkpnv
            have h1 : p ≤ kp.2 := hsorthead kp hkp
            have h2 : ¬ kp.2 = p := by
              intro heq2
              apply hpnotin
              rw [← heq2]
              exact List.mem_map_of_mem Prod.snd
                (List.mem_filter.mpr ⟨hkp, decide_eq_true hkpnv⟩)
            omega
          obtain ⟨ihF, ihN, ihB⟩ := ih (f + 1) hsortrest hkeys' hnv' hbound'
            hvids' (by omega) (by omega) (Or.inr hstage')
          rw [cascadeApply, if_neg hkv, if_pos hpf]
          have hmod : (f + 1) % 256 = f + 1 := Nat.mod_eq_of_lt (by omega)
          rw [hmod]
          refine ⟨List.Forall₂.cons
            ⟨rfl, by omega, by omega, fun hc => absurd hc hkv⟩ ihF, ?_, ?_⟩
          · rw [List.map_cons]
            refine List.nodup_cons.mpr ⟨?_, ihN⟩
            intro hmem
            obtain ⟨kq, hkq, he⟩ := List.mem_map.mp hmem
            have he' : kq.2 = f + 1 := he
            obtain ⟨kp', hkp', hr1, hr2, hr3, hr4⟩ := forall2_mem_right ihF kq hkq
            by_cases hkp'v : kp'.1 = vid
            · have hv' : kp'.2 = v := hvids' kp' hkp' hkp'v
              have heq : kq.2 = kp'.2 := hr4 hkp'v
              omega
            · exact ihB kq hkq (fun hc => hkp'v (hr1.trans hc)) he'
          · intro kq hkq hnv2
            rcases List.mem_cons.mp hkq with h1 | h2
            · intro hc
              rw [h1] at hc
              have hc' : f + 1 = f := hc
              omega
            · obtain ⟨kp', hkp', hr1, hr2, hr3, hr4⟩ :=
                forall2_mem_right ihF kq h2
              by_cases hkp'v : kp'.1 = vid
              · exact absurd (hr1.symm.trans hkp'v) hnv2
              · have hfk : f + 1 ≤ kp'.2 := hstage' kp' hkp' hkp'v
                have hr2' : kp'.2 ≤ kq.2 := hr2
                omega
        · -- no collision at this entry: kept unchanged
          have hstage'' : f = v ∨ ∀ kp ∈ rest, ¬ kp.1 = vid → f ≤ kp.2 :=
            hstage.imp id (fun h kp hkp => h kp (List.mem_cons_of_mem _ hkp))
          obtain ⟨ihF, ihN, ihB⟩ :=
            ih f hsortrest hkeys' hnv' hbound' hvids' hvf hf255 hstage''
          rw [cascadeApply, if_neg hkv, if_neg hpf]
          refine ⟨List.Forall₂.cons
            ⟨rfl, le_refl _, Nat.le_succ _, fun hc => absurd hc hkv⟩ ihF, ?_, ?_⟩
          · rw [List.map_cons]
            refine List.nodup_cons.mpr ⟨?_, ihN⟩
            intro hmem
            obtain ⟨kq, hkq, he⟩ := List.mem_map.mp hmem
            have he' : kq.2 = p := he
            obtain ⟨kp', hkp', hr1, hr2, hr3, hr4⟩ := forall2_mem_right ihF kq hkq
            by_cases hkp'v : kp'.1 = vid
            · have hv' : kp'.2 = v := hvids' kp' hkp' hkp'v
              have heq : kq.2 = kp'.2 := hr4 hkp'v
              rcases hstage with hfv | hall
              · omega
              · have hfp : f ≤ p := hall (k, p) (List.mem_cons_self _ _) hkv
                omega
            · have h1 : p ≤ kp'.2 := hsorthead kp' hkp'
              have h2 : ¬ kp'.2 = p := by
                intro heq2
                apply hpnotin
                rw [← heq2]
                exact List.mem_map_of_mem Prod.snd
                  (List.mem_filter.mpr ⟨hkp', decide_eq_true hkp'v⟩)
              have hr2' : kp'.2 ≤ kq.2 := hr2
              omega
          · intro kq hkq hnv2
            rcases List.mem_cons.mp hkq with h1 | h2
            · intro hc
              rw [h1] at hc
              have hc' : p = f := hc
              exact hpf hc'
            · exact ihB kq h2 hnv2

theorem freePriority_acts (st : UpdState) (value : Nat) (versionId : String) :
    (freePriority st value versionId).1.activations =
      applyUpdates st.activations
        (cascade versionId value (snapSort (priorityPairs st value versionId))) :=
  rfl

theorem freePriority_bootEnv (st : UpdState) (value : Nat) (versionId : String) :
    (freePriority st value versionId).1.bootEnv =
      (match snapSort (priorityPairs st value versionId) with
       | [] => versionId
       | (v0, p0) :: _ => if value = p0 then versionId else v0) :=
  rfl

/-- C1 (amended): provided the activations other than the requested
version hold pairwise distinct priorities at most 254 (no 8-bit wrap can
occur) and the requested version's activation already stores the requested
value (as in the `RedundancyPriority::priority` flow that calls
`freePriority`), after `freePriority(value, versionId)` no two activations
holding a priority share a value, and the version passed to the
boot-environment update (`updateUbootEnvVars`, recorded in `bootEnv`) holds
the minimum resulting priority.  Without the distinctness precondition,
pre-existing duplicate priorities survive the call (see the
counterexample). -/
theorem freePriority_spec (st : UpdState) (value : Nat) (versionId : String)
    (hwf : UpdWF st) (a : ActState)
    (ha : mapLookup st.activations versionId = some a)
    (harp : a.redundancyPriority = some value)
    (hval : value ≤ 255)
    (hdist : (((rpPairs st.activations).filter
        (fun kp => ¬ kp.1 = versionId)).map Prod.snd).Nodup)
    (hbound : ∀ kp ∈ (rpPairs st.activations).filter
        (fun kp => ¬ kp.1 = versionId), kp.2 ≤ 254) :
    (∀ k1 a1 p1 k2 a2 p2, ¬ k1 = k2 →
      mapLookup (freePriority st value versionId).1.activations k1 = some a1 →
      a1.redundancyPriority = some p1 →
      mapLookup (freePriority st value versionId).1.activations k2 = some a2 →
      a2.redundancyPriority = some p2 → ¬ p1 = p2)
    ∧ (∃ b pb, mapLookup (freePriority st value versionId).1.activations
          (freePriority st value versionId).1.bootEnv = some b ∧
        b.redundancyPriority = some pb ∧
        ∀ k a' p', mapLookup (freePriority st value versionId).1.activations k =
            some a' → a'.redundancyPriority = some p' → pb ≤ p') := by
  obtain ⟨hwv, hwa, hfield⟩ := hwf
  have hperm : (snapSort (priorityPairs st value versionId)).Perm
      (priorityPairs st value versionId) := snapSort_perm _
  have hvidpair : ((versionId, value) : String × Nat) ∈
      snapSort (priorityPairs st value versionId) :=
    hperm.mem_iff.mpr (List.mem_cons_self _ _)
  have hpairkeys : ((priorityPairs st value versionId).map Prod.fst).Nodup := by
    unfold priorityPairs
    rw [List.map_cons]
    refine List.nodup_cons.mpr ⟨?_, ?_⟩
    · intro hmem
      obtain ⟨kp, hkp, he⟩ := List.mem_map.mp hmem
      exact (of_decide_eq_true (List.mem_filter.mp hkp).2) he
    · have h1 : (((rpPairs st.activations).filter
          (fun kp => ¬ kp.1 = versionId)).map Prod.fst).Sublist
          ((rpPairs st.activations).map Prod.fst) :=
        (List.filter_sublist _).map _
      exact (keys_nodup_of_sorted hwa).sublist
        (h1.trans (rpPairs_keys_sublist st.activations))
  have hsnapkeys : ((snapSort (priorityPairs st value versionId)).map
      Prod.fst).Nodup := ((hperm.map Prod.fst).nodup_iff).mpr hpairkeys
  have hsnapsorted := snapSort_snds_mono (priorityPairs st value versionId)
  have hpairs_filter : (priorityPairs st value versionId).filter
      (fun kp => ¬ kp.1 = versionId) =
      (rpPairs st.activations).filter (fun kp => ¬ kp.1 = versionId) := by
    unfold priorityPairs
    rw [List.filter_cons]
    split_ifs with hcond
    · exact absurd (of_decide_eq_true hcond) (fun hc => hc rfl)
    · exact List.filter_eq_self.mpr (fun kp hkp => (List.mem_filter.mp hkp).2)
  have hsnapnv : (((snapSort (priorityPairs st value versionId)).filter
      (fun kp => ¬ kp.1 = versionId)).map Prod.snd).Nodup :=
    (((hperm.filter _).map Prod.snd).nodup_iff).mpr
      (hpairs_filter.symm ▸ hdist)
  have hsnapbound : ∀ kp ∈ snapSort (priorityPairs st value versionId),
      ¬ kp.1 = versionId → kp.2 ≤ 254 := by
    intro kp hkp hnvk
    have hkp2 : kp ∈ priorityPairs st value versionId := hperm.subset hkp
    unfold priorityPairs at hkp2
    rcases List.mem_cons.mp hkp2 with h1 | h2
    · exact absurd (by rw [h1]) hnvk
    · exact hbound kp h2
  have hsnapvids : ∀ kp ∈ snapSort (priorityPairs st value versionId),
      kp.1 = versionId → kp.2 = value := by
    intro kp hkp hvk
    have hkp2 : kp ∈ priorityPairs st value versionId := hperm.subset hkp
    unfold priorityPairs at hkp2
    rcases List.mem_cons.mp hkp2 with h1 | h2
    · rw [h1]
    · exact absurd hvk (of_decide_eq_true (List.mem_filter.mp h2).2)
  obtain ⟨coreF, coreN, coreB⟩ := cascadeApply_main versionId value
    (snapSort (priorityPairs st value versionId)) value hsnapsorted hsnapkeys
    hsnapnv hsnapbound hsnapvids (le_refl value) hval (Or.inl rfl)
  have hWU : withUpdates
      (cascade versionId value (snapSort (priorityPairs st value versionId)))
      (snapSort (priorityPairs st value versionId)) =
      cascadeApply versionId value (snapSort (priorityPairs st value versionId)) :=
    withUpdates_cascade versionId _ value hsnapkeys hsnapbound hval
  have hUkeys : ((cascade versionId value
      (snapSort (priorityPairs st value versionId))).map Prod.fst).Nodup :=
    hsnapkeys.sublist (cascade_keys_sub versionId _ value)
  have hUvid : mapLookup (cascade versionId value
      (snapSort (priorityPairs st value versionId))) versionId = none :=
    cascade_lookup_vid_none versionId _ value hsnapbound hval
  have hap : ∀ k : String,
      mapLookup (freePriority st value versionId).1.activations k =
        (match mapLookup (cascade versionId value
            (snapSort (priorityPairs st value versionId))) k with
         | some q => (mapLookup st.activations k).map
             (fun a0 => { a0 with redundancyPriority := some q })
         | none => mapLookup st.activations k) := by
    intro k
    rw [freePriority_acts]
    exact mapLookup_applyUpdates _ st.activations k hUkeys
  have hpostval : ∀ k a' p',
      mapLookup (freePriority st value versionId).1.activations k = some a' →
      a'.redundancyPriority = some p' →
      (k, p') ∈ cascadeApply versionId value
        (snapSort (priorityPairs st value versionId)) := by
    intro k a' p' hlk hrp'
    rw [hap k] at hlk
    cases hUk : mapLookup (cascade versionId value
        (snapSort (priorityPairs st value versionId))) k with
    | none =>
        rw [hUk] at hlk
        have hlk' : mapLookup st.activations k = some a' := hlk
        by_cases hkvid : k = versionId
        · subst hkvid
          rw [ha] at hlk'
          have haa : a = a' := by injection hlk'
          have hp' : p' = value := by
            rw [← haa, harp] at hrp'
            injection hrp' with h
            exact h.symm
          rw [hp']
          exact hWU ▸ withUpdates_mem_none hvidpair hUk
        · have hmem := mem_of_mapLookup hlk'
          have hrpp := rpPairs_mem hmem hrp'
          have hfil : ((k, p') : String × Nat) ∈ (rpPairs st.activations).filter
              (fun kp => ¬ kp.1 = versionId) :=
            List.mem_filter.mpr ⟨hrpp, decide_eq_true hkvid⟩
          have hsnapmem : ((k, p') : String × Nat) ∈
              snapSort (priorityPairs st value versionId) :=
            hperm.mem_iff.mpr (List.mem_cons_of_mem _ hfil)
          exact hWU ▸ withUpdates_mem_none hsnapmem hUk
    | some q =>
        rw [hUk] at hlk
        have hlk' : (mapLookup st.activations k).map
            (fun a0 => { a0 with redundancyPriority := some q }) = some a' := hlk
        cases hacts : mapLookup st.activations k with
        | none => rw [hacts] at hlk'; exact absurd hlk' (by simp)
        | some a0 =>
            rw [hacts] at hlk'
            simp only [Option.map_some', Option.some.injEq] at hlk'
            have hq : p' = q := by
              rw [← hlk'] at hrp'
              have hqq : (some q : Option Nat) = some p' := hrp'
              injection hqq with h
              exact h.symm
            have hUmem := mem_of_mapLookup hUk
            obtain ⟨hnvk, pold, hpoldmem, hqe, hge⟩ :=
              cascade_entries versionId _ value hsnapbound hval (k, q) hUmem
            rw [hq]
            exact hWU ▸ withUpdates_mem_some hpoldmem hUk
  rcases hsnap : snapSort (priorityPairs st value versionId)
    with _ | ⟨⟨v0, p0⟩, stail⟩
  · rw [hsnap] at hvidpair
    exact absurd hvidpair (List.not_mem_nil _)
  have hboot : (freePriority st value versionId).1.bootEnv =
      if value = p0 then versionId else v0 := by
    rw [freePriority_bootEnv, hsnap]
  have hsnapmin : ∀ kq ∈ cascadeApply versionId value
      (snapSort (priorityPairs st value versionId)), p0 ≤ kq.2 := by
    intro kq hkq
    obtain ⟨kp', hkp', hr1, hr2, hr3, hr4⟩ := forall2_mem_right coreF kq hkq
    have hkp'2 : kp' ∈ snapSort (priorityPairs st value versionId) := hkp'
    rw [hsnap] at hkp'2
    rcases List.mem_cons.mp hkp'2 with h1 | h2
    · have hkpp : kp'.2 = p0 := by rw [h1]
      omega
    · have hp0le : p0 ≤ kp'.2 :=
        (List.pairwise_cons.mp (hsnap ▸ hsnapsorted)).1 kp' h2
      omega
  constructor
  · intro k1 a1 p1 k2 a2 p2 hne h1 hrp1 h2 hrp2 hpp
    have hm1 := hpostval k1 a1 p1 h1 hrp1
    have hm2 := hpostval k2 a2 p2 h2 hrp2
    rw [hpp] at hm1
    have heq := List.inj_on_of_nodup_map coreN hm1 hm2 rfl
    exact hne (congrArg Prod.fst heq)
  · by_cases hvp : value = p0
    · refine ⟨a, value, ?_, harp, ?_⟩
      · rw [hboot, if_pos hvp, hap versionId, hUvid]
        exact ha
      · intro k a' p' hlk hrp'
        have hm := hpostval k a' p' hlk hrp'
        have := hsnapmin (k, p') hm
        omega
    · have hv0ne : ¬ v0 = versionId := by
        intro he
        have hp0v : p0 = value :=
          hsnapvids (v0, p0) (by rw [hsnap]; exact List.mem_cons_self _ _) he
        exact hvp hp0v.symm
      have hp0le : p0 ≤ value := by
        have hvidpair' := hvidpair
        rw [hsnap] at hvidpair'
        rcases List.mem_cons.mp hvidpair' with h1 | h2
        · exact absurd (congrArg Prod.fst h1).symm hv0ne
        · have hle := (List.pairwise_cons.mp (hsnap ▸ hsnapsorted)).1
            ((versionId, value) : String × Nat) h2
          exact hle
      have hheadmem : ((v0, p0) : String × Nat) ∈
          snapSort (priorityPairs st value versionId) := by
        rw [hsnap]
        exact List.mem_cons_self _ _
      have hUv0 : mapLookup (cascade versionId value
          (snapSort (priorityPairs st value versionId))) v0 = none := by
        cases hUv : mapLookup (cascade versionId value
            (snapSort (priorityPairs st value versionId))) v0 with
        | none => rfl
        | some x =>
            have hUmem := mem_of_mapLookup hUv
            obtain ⟨hnvk, pold, hpoldmem, hqe, hge⟩ :=
              cascade_entries versionId _ value hsnapbound hval (v0, x) hUmem
            have heq := List.inj_on_of_nodup_map hsnapkeys hpoldmem hheadmem rfl
            have hpp0 : pold = p0 := congrArg Prod.snd heq
            exact absurd (show value = p0 from by omega) hvp
      have hpairmem : ((v0, p0) : String × Nat) ∈
          priorityPairs st value versionId := hperm.subset hheadmem
      have hothermem : ((v0, p0) : String × Nat) ∈
          (rpPairs st.activations).filter (fun kp => ¬ kp.1 = versionId) := by
        unfold priorityPairs at hpairmem
        rcases List.mem_cons.mp hpairmem with h1 | h2
        · exact absurd (congrArg Prod.fst h1) hv0ne
        · exact h2
      obtain ⟨a0, ha0mem, ha0rp⟩ := mem_rpPairs (List.mem_filter.mp hothermem).1
      have ha0 : mapLookup st.activations v0 = some a0 :=
        mapLookup_of_mem hwa ha0mem
      refine ⟨a0, p0, ?_, ha0rp, ?_⟩
      · rw [hboot, if_neg hvp, hap v0, hUv0]
        exact ha0
      · intro k a' p' hlk hrp'
        exact hsnapmin (k, p') (hpostval k a' p' hlk hrp')

/-- Witness: setting bb to 0 while aa already holds 0 and cc holds 1:
the cascade resolves the collision and bb becomes the boot target. -/
theorem freePriority_spec_witness :
    (UpdWF stSteady ∧
      mapLookup stSteady.activations "bb" =
        some (mkAct "bb" Activations.Active (some 0))) ∧
      (∃ b pb, mapLookup (freePriority stSteady 0 "bb").1.activations
          (freePriority stSteady 0 "bb").1.bootEnv = some b ∧
        b.redundancyPriority = some pb ∧
        ∀ k a' p', mapLookup (freePriority stSteady 0 "bb").1.activations k =
            some a' → a'.redundancyPriority = some p' → pb ≤ p') :=
  ⟨⟨by decide, by decide⟩,
   (freePriority_spec stSteady 0 "bb" (by decide)
     (mkAct "bb" Activations.Active (some 0)) (by decide) (by decide)
     (by decide) (by decide) (by decide)).2⟩

/-- C1 counterexample: in `stDup` the Active images aa and bb both hold
priority 5; after `freePriority(0, "cc")` they still both hold priority 5,
so the claim that no two Active images share a priority after any
`freePriority` call is false. -/
theorem freePriority_counterexample :
    (mapLookup (freePriority stDup 0 "cc").1.activations "aa").map
        ActState.redundancyPriority = some (some 5) ∧
      (mapLookup (freePriority stDup 0 "cc").1.activations "bb").map
        ActState.redundancyPriority = some (some 5) ∧
      ¬ ("aa" : String) = "bb" := by
  refine ⟨?_, ?_, ?_⟩ <;> decide

/-! ### C5: freeSpace eviction -/

theorem pqGe_total (a b : Nat × String) : pqGe a b ∨ pqGe b a := by
  unfold pqGe
  rcases Nat.lt_trichotomy a.1 b.1 with h | h | h
  · exact Or.inr (Or.inl h)
  · by_cases hs : a.2 < b.2
    · exact Or.inr (Or.inr ⟨h.symm, lt_asymm hs⟩)
    · exact Or.inl (Or.inr ⟨h, hs⟩)
  · exact Or.inl (Or.inl h)

theorem pqGe_trans {a b c : Nat × String} (h1 : pqGe a b) (h2 : pqGe b c) :
    pqGe a c := by
  unfold pqGe at h1 h2 ⊢
  rcases h1 with h1 | ⟨h1e, h1s⟩ <;> rcases h2 with h2 | ⟨h2e, h2s⟩
  · exact Or.inl (lt_trans h2 h1)
  · exact Or.inl (h2e ▸ h1)
  · exact Or.inl (h1e ▸ h2)
  · refine Or.inr ⟨h1e.trans h2e, fun hlt => ?_⟩
    exact absurd hlt (not_lt.mpr ((not_lt.mp h2s).trans (not_lt.mp h1s)))

theorem mem_pqInsert (x y : Nat × String) (l : List (Nat × String)) :
    y ∈ pqInsert x l ↔ y = x ∨ y ∈ l := by
  induction l with
  | nil => simp [pqInsert]
  | cons hd t ih =>
      rw [pqInsert]
      split_ifs <;> simp only [List.mem_cons, ih] <;> tauto

theorem pqInsert_pairwise (x : Nat × String) (l : List (Nat × String))
    (h : l.Pairwise pqGe) : (pqInsert x l).Pairwise pqGe := by
  induction l with
  | nil => simp [pqInsert]
  | cons hd t ih =>
      rw [pqInsert]
      split_ifs with hx
      · refine List.pairwise_cons.mpr ⟨fun y hy => ?_, h⟩
        rcases List.mem_cons.mp hy with h1 | h2
        · exact h1 ▸ hx
        · exact pqGe_trans hx ((List.pairwise_cons.mp h).1 y h2)
      · refine List.pairwise_cons.mpr
          ⟨fun y hy => ?_, ih (List.pairwise_cons.mp h).2⟩
        rcases (mem_pqInsert x y t).mp hy with h1 | h2
        · subst h1
          rcases pqGe_total y hd with hxh | hhx
          · exact absurd hxh hx
          · exact hhx
        · exact (List.pairwise_cons.mp h).1 y h2

theorem pqSort_pairwise (l : List (Nat × String)) :
    (pqSort l).Pairwise pqGe := by
  induction l with
  | nil => simp [pqSort]
  | cons hd t ih => exact pqInsert_pairwise hd (pqSort t) ih

theorem pqInsert_perm (x : Nat × String) (l : List (Nat × String)) :
    (pqInsert x l).Perm (x :: l) := by
  induction l with
  | nil => exact List.Perm.refl _
  | cons hd t ih =>
      rw [pqInsert]
      split_ifs
      · exact List.Perm.refl _
      · exact (List.Perm.cons hd ih).trans (List.Perm.swap x hd t)

theorem pqSort_perm (l : List (Nat × String)) : (pqSort l).Perm l := by
  induction l with
  | nil => exact List.Perm.refl _
  | cons hd t ih => exact (pqInsert_perm hd (pqSort t)).trans (List.Perm.cons hd ih)

theorem length_filter_mapErase (P : String × ActState → Bool)
    (l : List (String × ActState)) (v : String) (a : ActState)
    (hl : mapLookup l v = some a) (hPa : P (v, a) = true) :
    (List.filter P (mapErase l v)).length + 1 = (List.filter P l).length := by
  induction l with
  | nil => exact absurd hl (by simp [mapLookup])
  | cons hd t ih =>
      obtain ⟨k, b⟩ := hd
      by_cases hk : k = v
      · subst hk
        rw [mapLookup, if_pos rfl, Option.some.injEq] at hl
        subst hl
        rw [mapErase, if_pos rfl, List.filter_cons, if_pos hPa]
        rfl
      · rw [mapLookup, if_neg hk] at hl
        rw [mapErase, if_neg hk, List.filter_cons, List.filter_cons]
        by_cases hP : P (k, b) = true
        · rw [if_pos hP, if_pos hP]
          simpa using ih hl
        · rw [if_neg hP, if_neg hP]
          exact ih hl

theorem countAF_pos (st : UpdState) (v : String) (a : ActState)
    (hl : mapLookup st.activations v = some a)
    (haf : a.activationState = Activations.Active ∨
           a.activationState = Activations.Failed) :
    1 ≤ countAF st := by
  have hmem : (v, a) ∈ afEntries st :=
    List.mem_filter.mpr ⟨mem_of_mapLookup hl, by simpa using haf⟩
  have := List.length_pos.mpr (List.ne_nil_of_mem hmem)
  exact this

theorem countAF_eraseOp (maxAllowed : Nat) (st : UpdState) (v : String)
    (a : ActState) (hl : mapLookup st.activations v = some a)
    (haf : a.activationState = Activations.Active ∨
           a.activationState = Activations.Failed)
    (href : ¬ (mapLookup st.versions v = some true ∧ 1 < maxAllowed)) :
    countAF (eraseOp maxAllowed st v).1 + 1 = countAF st := by
  have hacts : (eraseOp maxAllowed st v).1.activations = mapErase st.activations v := by
    rw [eraseOp, if_neg href]
    simp only [hl, resetUbootEnvVars, updateUbootEnvVars]
    split_ifs <;> rfl
  unfold countAF afEntries
  rw [hacts]
  exact length_filter_mapErase _ st.activations v a hl (by simpa using haf)

theorem eraseOp_lookup_versions_ne (maxAllowed : Nat) (st : UpdState)
    (entryId k : String) (hne : ¬ k = entryId)
    (href : ¬ (mapLookup st.versions entryId = some true ∧ 1 < maxAllowed)) :
    mapLookup (eraseOp maxAllowed st entryId).1.versions k =
      mapLookup st.versions k := by
  rw [eraseOp, if_neg href]
  cases hv : mapLookup st.versions entryId <;>
    cases ha : mapLookup st.activations entryId <;>
      simp [hv, ha, resetUbootEnvVars, updateUbootEnvVars,
        mapLookup_mapErase_ne st.versions k entryId hne]

theorem freeSpaceLoop_evicted_take (maxAllowed : Nat)
    (pq : List (Nat × String)) :
    ∀ (count : Nat) (st : UpdState),
      ∃ n, (freeSpaceLoop maxAllowed pq count st).2.1 =
        (pq.map Prod.snd).take n := by
  induction pq with
  | nil => exact fun count st => ⟨0, rfl⟩
  | cons hd rest ih =>
      intro count st
      obtain ⟨p, v⟩ := hd
      rw [freeSpaceLoop]
      split_ifs with hc
      · obtain ⟨n, hn⟩ := ih (count - 1) (eraseOp maxAllowed st v).1
        exact ⟨n + 1, by simp [hn]⟩
      · exact ⟨0, rfl⟩

theorem freeSpaceLoop_count (maxAllowed : Nat) (pq : List (Nat × String)) :
    ∀ (count : Nat) (st : UpdState),
      (∀ pv ∈ pq, ∃ a, mapLookup st.activations pv.2 = some a ∧
          (a.activationState = Activations.Active ∨
           a.activationState = Activations.Failed) ∧
          ¬ (mapLookup st.versions pv.2 = some true ∧ 1 < maxAllowed)) →
      (pq.map Prod.snd).Nodup →
      countAF st = count →
      KeysSorted st.activations →
      countAF (freeSpaceLoop maxAllowed pq count st).1 +
          (freeSpaceLoop maxAllowed pq count st).2.1.length = count ∧
        (1 ≤ maxAllowed →
          (freeSpaceLoop maxAllowed pq count st).2.1.length =
            min (count + 1 - maxAllowed) pq.length) := by
  induction pq with
  | nil =>
      intro count st _ _ hcount _
      rw [freeSpaceLoop]
      constructor
      · simpa using hcount
      · intro _
        simp
  | cons hd rest ih =>
      intro count st hfacts hnodup hcount hwa
      obtain ⟨p, v⟩ := hd
      obtain ⟨a, hla, haf, hrefv⟩ := hfacts (p, v) (List.mem_cons_self _ _)
      rw [freeSpaceLoop]
      split_ifs with hc
      · -- the loop erases v and recurses
        have hone : 1 ≤ count := hcount ▸ countAF_pos st v a hla haf
        have hcount1 : countAF (eraseOp maxAllowed st v).1 = count - 1 := by
          have := countAF_eraseOp maxAllowed st v a hla haf hrefv
          omega
        obtain ⟨hs1, hl1, hsub1, hkeep1⟩ := eraseOp_acts maxAllowed st v hwa hrefv
        have hfacts1 : ∀ pv ∈ rest, ∃ a1,
            mapLookup (eraseOp maxAllowed st v).1.activations pv.2 = some a1 ∧
            (a1.activationState = Activations.Active ∨
             a1.activationState = Activations.Failed) ∧
            ¬ (mapLookup (eraseOp maxAllowed st v).1.versions pv.2 = some true ∧
               1 < maxAllowed) := by
          intro pv hpv
          obtain ⟨a1, hla1, haf1, href1⟩ := hfacts pv (List.mem_cons_of_mem _ hpv)
          have hvne : ¬ pv.2 = v := by
            intro he
            rw [List.map_cons] at hnodup
            have hm : pv.2 ∈ rest.map Prod.snd := List.mem_map_of_mem Prod.snd hpv
            rw [he] at hm
            exact (List.nodup_cons.mp hnodup).1 hm
          refine ⟨a1, ?_, haf1, ?_⟩
          · exact mapLookup_of_mem hs1
              (hkeep1 pv.2 a1 (mem_of_mapLookup hla1) hvne)
          · rw [eraseOp_lookup_versions_ne maxAllowed st v pv.2 hvne hrefv]
            exact href1
        have hnodup1 : (rest.map Prod.snd).Nodup := by
          rw [List.map_cons] at hnodup
          exact (List.nodup_cons.mp hnodup).2
        obtain ⟨ihA, ihB⟩ := ih (count - 1) (eraseOp maxAllowed st v).1
          hfacts1 hnodup1 hcount1 hs1
        constructor
        · simp only [List.length_cons]
          omega
        · intro hmax
          have := ihB hmax
          simp only [List.length_cons, List.map_cons]
          rw [this]
          have hcm : maxAllowed ≤ count := hc
          omega
      · constructor
        · simpa using hcount
        · intro hmax
          have : count + 1 - maxAllowed = 0 := by omega
          simp [this]

/-- The per-entry facts needed about the eviction queue, derived from the
registry's well-formedness. -/
theorem pqCandidates_facts (maxAllowed : Nat) (st : UpdState)
    (callerVid : String) (hwf : UpdWF st) :
    (∀ pv ∈ pqSort (pqCandidates maxAllowed st callerVid), ∃ a,
        mapLookup st.activations pv.2 = some a ∧
        (a.activationState = Activations.Active ∨
         a.activationState = Activations.Failed) ∧
        ¬ (mapLookup st.versions pv.2 = some true ∧ 1 < maxAllowed)) ∧
      ((pqSort (pqCandidates maxAllowed st callerVid)).map Prod.snd).Nodup ∧
      (∀ pv ∈ pqSort (pqCandidates maxAllowed st callerVid), ¬ pv.2 = callerVid) ∧
      (∀ pv ∈ pqSort (pqCandidates maxAllowed st callerVid),
        1 < maxAllowed → ¬ isFunctionalIn st pv.2 = true) := by
  obtain ⟨hwv, hwa, hfield⟩ := hwf
  have hperm := pqSort_perm (pqCandidates maxAllowed st callerVid)
  have hmemc : ∀ pv ∈ pqSort (pqCandidates maxAllowed st callerVid),
      ∃ ka ∈ st.activations,
        pv = (queuePriority ka.2, ka.2.versionId) ∧
        (ka.2.activationState = Activations.Active ∨
         ka.2.activationState = Activations.Failed) ∧
        ¬ ((isFunctionalIn st ka.2.versionId = true ∧ 1 < maxAllowed) ∨
           ka.2.versionId = callerVid) := by
    intro pv hpv
    have hpv2 := hperm.subset hpv
    unfold pqCandidates afEntries at hpv2
    obtain ⟨ka, hka, he⟩ := List.mem_map.mp hpv2
    rw [List.mem_filter] at hka
    obtain ⟨hka1, hka2⟩ := hka
    rw [List.mem_filter] at hka1
    obtain ⟨hka0, hka3⟩ := hka1
    refine ⟨ka, hka0, he.symm, ?_, ?_⟩
    · exact of_decide_eq_true hka3
    · exact of_decide_eq_true hka2
  refine ⟨?_, ?_, ?_, ?_⟩
  · intro pv hpv
    obtain ⟨ka, hka, he, haf, hexcl⟩ := hmemc pv hpv
    have hkey : ka.2.versionId = ka.1 := (hfield ka hka).1
    refine ⟨ka.2, ?_, haf, ?_⟩
    · rw [he]
      simp only [hkey]
      exact mapLookup_of_mem hwa (by rw [show (ka.1, ka.2) = ka from rfl]; exact hka)
    · rintro ⟨hfun, hmax⟩
      apply hexcl
      left
      refine ⟨?_, hmax⟩
      unfold isFunctionalIn
      rw [he] at hfun
      simp only at hfun
      rw [hfun]
      rfl
  · have hsub : ∀ ka ∈ (afEntries st).filter
        (fun ka => ¬ ((isFunctionalIn st ka.2.versionId = true ∧ 1 < maxAllowed) ∨
                      ka.2.versionId = callerVid)), ka ∈ st.activations := by
      intro ka hka
      exact (List.mem_filter.mp (List.mem_filter.mp hka).1).1
    have hmapeq : ((afEntries st).filter
        (fun ka => ¬ ((isFunctionalIn st ka.2.versionId = true ∧ 1 < maxAllowed) ∨
                      ka.2.versionId = callerVid))).map (fun ka => ka.2.versionId) =
        ((afEntries st).filter
        (fun ka => ¬ ((isFunctionalIn st ka.2.versionId = true ∧ 1 < maxAllowed) ∨
                      ka.2.versionId = callerVid))).map Prod.fst := by
      apply List.map_congr_left
      intro ka hka
      exact (hfield ka (hsub ka hka)).1
    have hnd : ((pqCandidates maxAllowed st callerVid).map Prod.snd).Nodup := by
      unfold pqCandidates
      rw [List.map_map]
      rw [show ((fun pv => Prod.snd pv) ∘
          (fun ka => (queuePriority ka.2, ka.2.versionId))) =
          (fun (ka : String × ActState) => ka.2.versionId) from rfl]
      rw [hmapeq]
      have : KeysSorted ((afEntries st).filter
          (fun ka => ¬ ((isFunctionalIn st ka.2.versionId = true ∧ 1 < maxAllowed) ∨
                        ka.2.versionId = callerVid))) :=
        hwa.sublist ((List.filter_sublist _).trans (List.filter_sublist _))
      exact keys_nodup_of_sorted this
    exact hnd.perm (hperm.map Prod.snd).symm
  · intro pv hpv
    obtain ⟨ka, hka, he, haf, hexcl⟩ := hmemc pv hpv
    rw [he]
    intro hcontra
    exact hexcl (Or.inr hcontra)
  · intro pv hpv hmax
    obtain ⟨ka, hka, he, haf, hexcl⟩ := hmemc pv hpv
    rw [he]
    intro hcontra
    exact hexcl (Or.inl ⟨hcontra, hmax⟩)

/-- C5: `freeSpace(caller)` never evicts the caller's own version id, never
evicts the functional version while more than one active slot is allowed,
empties the pool below the configured maximum whenever enough eviction
candidates existed, evicts in descending queue-priority order (the eviction
sequence is a prefix of the descending-sorted queue), and assigns the
sentinel priority 999 to every Failed image. -/
theorem freeSpace_spec (maxAllowed : Nat) (st : UpdState) (callerVid : String)
    (hwf : UpdWF st) :
    (¬ callerVid ∈ (freeSpace maxAllowed st callerVid).2.1)
    ∧ (1 < maxAllowed → ∀ v ∈ (freeSpace maxAllowed st callerVid).2.1,
        ¬ isFunctionalIn st v = true)
    ∧ (∃ n, (freeSpace maxAllowed st callerVid).2.1 =
        ((pqSort (pqCandidates maxAllowed st callerVid)).map Prod.snd).take n)
    ∧ List.Pairwise (fun a b => b.1 ≤ a.1)
        (pqSort (pqCandidates maxAllowed st callerVid))
    ∧ (∀ ka ∈ st.activations, ka.2.activationState = Activations.Failed →
        queuePriority ka.2 = 999)
    ∧ (1 ≤ maxAllowed →
       countAF st ≤ maxAllowed - 1 + (pqCandidates maxAllowed st callerVid).length →
       countAF (freeSpace maxAllowed st callerVid).1 < maxAllowed) := by
  obtain ⟨hfacts, hnodup, hncall, hnfun⟩ :=
    pqCandidates_facts maxAllowed st callerVid hwf
  obtain ⟨n, htake⟩ := freeSpaceLoop_evicted_take maxAllowed
    (pqSort (pqCandidates maxAllowed st callerVid)) (countAF st) st
  have hev_sub : ∀ v ∈ (freeSpace maxAllowed st callerVid).2.1,
      v ∈ (pqSort (pqCandidates maxAllowed st callerVid)).map Prod.snd := by
    intro v hv
    unfold freeSpace at hv
    rw [htake] at hv
    exact List.take_subset n _ hv
  refine ⟨?_, ?_, ⟨n, htake⟩, ?_, ?_, ?_⟩
  · intro hmem
    obtain ⟨pv, hpv, he⟩ := List.mem_map.mp (hev_sub callerVid hmem)
    exact hncall pv hpv he
  · intro hmax v hv
    obtain ⟨pv, hpv, he⟩ := List.mem_map.mp (hev_sub v hv)
    exact he ▸ hnfun pv hpv hmax
  · exact (pqSort_pairwise _).imp (fun h => by
      rcases h with h | ⟨h, -⟩
      · exact le_of_lt h
      · exact le_of_eq h.symm)
  · intro ka hka hfail
    unfold queuePriority
    rw [hfail]
  · intro hmax hcand
    obtain ⟨hA, hB⟩ := freeSpaceLoop_count maxAllowed
      (pqSort (pqCandidates maxAllowed st callerVid)) (countAF st) st
      hfacts hnodup rfl hwf.2.1
    have hlen : (pqSort (pqCandidates maxAllowed st callerVid)).length =
        (pqCandidates maxAllowed st callerVid).length :=
      (pqSort_perm _).length_eq
    have hB2 := hB hmax
    rw [hlen] at hB2
    unfold freeSpace
    rcases Nat.le_total (countAF st + 1 - maxAllowed)
      (pqCandidates maxAllowed st callerVid).length with h | h
    · rw [Nat.min_eq_left h] at hB2
      omega
    · rw [Nat.min_eq_right h] at hB2
      omega

/-- Witness: in `stPool` with two slots and caller D, freeSpace evicts
without touching the caller or the functional image and ends below the
maximum. -/
theorem freeSpace_spec_witness :
    UpdWF stPool ∧
      (¬ "D" ∈ (freeSpace 2 stPool "D").2.1) ∧
      (∀ v ∈ (freeSpace 2 stPool "D").2.1, ¬ isFunctionalIn stPool v = true) ∧
      countAF (freeSpace 2 stPool "D").1 < 2 :=
  ⟨by decide,
   (freeSpace_spec 2 stPool "D" (by decide)).1,
   (freeSpace_spec 2 stPool "D" (by decide)).2.1 (by decide),
   (freeSpace_spec 2 stPool "D" (by decide)).2.2.2.2.2 (by decide) (by decide)⟩

/-- C9 counterexample: calling `activation(Activating)` on an Active image
holding priority 0 while the minimum-ship-level check fails leaves the
image `Failed` with its priority still populated, contradicting the
claimed invariant that the priority is populated only while the state is
Active or Activating. -/
theorem activation_priority_counterexample :
    (activation envMslFail sActiveRp Activations.Activating).redundancyPriority =
      some 0 ∧
      (activation envMslFail sActiveRp Activations.Activating).activationState =
        Activations.Failed := by
  constructor
  · decide
  · decide

end Updater

namespace minimum_ship_level

/-! ### C7: the minimum-ship-level verifier -/

theorem compare_neg_iff (a b : Version) : compare a b < 0 ↔ lexLt a b := by
  unfold compare lexLt
  split_ifs with h1 h2 h3 h4 h5 h6 <;> simp <;> omega

/-- C7: `verify` returns true when no minimum version or parse pattern is
configured; otherwise it returns false iff the candidate's parsed
`(major, minor, rev)` tuple is lexicographically below the configured
minimum's tuple, where a string the pattern fails to match parses to
`(0, 0, 0)`. -/
theorem verify_spec (msl mslRegex : String)
    (matchf : String → Option (Nat × Nat × Nat)) (cand s : String)
    (hm : ¬ msl = "") (hr : ¬ mslRegex = "") :
    (verify msl mslRegex matchf cand = false ↔
      lexLt (parse matchf cand) (parse matchf msl))
    ∧ verify "" mslRegex matchf cand = true
    ∧ verify msl "" matchf cand = true
    ∧ (matchf s = none → parse matchf s = ⟨0, 0, 0⟩) := by
  refine ⟨?_, by simp [verify], by simp [verify], fun h => by simp [parse, h]⟩
  unfold verify
  rw [if_neg (by push_neg; exact ⟨hm, hr⟩)]
  by_cases hcmp : compare (parse matchf cand) (parse matchf msl) < 0
  · simp only [if_pos hcmp]
    simp [(compare_neg_iff _ _).mp hcmp]
  · simp only [if_neg hcmp]
    simp only [Bool.true_eq_false, false_iff]
    exact fun hl => hcmp ((compare_neg_iff _ _).mpr hl)

/-- Witness: with minimum 2.3.4 configured, the candidate "x" (parsing to
2.3.3) is refused, and an unmatched string parses to `(0, 0, 0)`. -/
theorem verify_spec_witness :
    ((¬ "2.3.4" = "") ∧ (¬ "re" = "")) ∧
      ((verify "2.3.4" "re" mslMatchFix "x" = false ↔
         lexLt (parse mslMatchFix "x") (parse mslMatchFix "2.3.4"))
       ∧ verify "" "re" mslMatchFix "x" = true
       ∧ verify "2.3.4" "" mslMatchFix "x" = true
       ∧ (mslMatchFix "zz" = none → parse mslMatchFix "zz" = ⟨0, 0, 0⟩)) :=
  ⟨⟨by decide, by decide⟩,
   verify_spec "2.3.4" "re" mslMatchFix "x" "zz" (by decide) (by decide)⟩

end minimum_ship_level
